import Mathlib

namespace CatboostPlot

/-!
Verification development for the metrics-plot calcer
(`catboost/libs/algo/plot.cpp`).

The C++ source is shallowly embedded: matrices of `double` become
`List (List ℚ)` (only addition and copying occur in the embedded paths, so
rationals model the real-number intent exactly), `TVector` becomes `List`,
fallible paths (`CB_ENSURE`) become `Except String`, and in-place mutation
becomes explicit state passing.  The model-inference kernel (`Applier`),
metric evaluation and accumulator merging are external collaborators and
are passed in as function parameters, exactly as the source treats them as
opaque virtual calls.
-/

/-- Prediction matrix: one row per output dimension, one column per document
(`TVector<TVector<double>>` in the source). -/
abbrev Mat := List (List ℚ)

instance {ε α : Type} [DecidableEq ε] [DecidableEq α] : DecidableEq (Except ε α) :=
  fun a b =>
    match a, b with
    | .error x, .error y =>
      if h : x = y then .isTrue (by rw [h])
      else .isFalse (by intro hc; cases hc; exact h rfl)
    | .error _, .ok _ => .isFalse (by intro hc; cases hc)
    | .ok _, .error _ => .isFalse (by intro hc; cases hc)
    | .ok x, .ok y =>
      if h : x = y then .isTrue (by rw [h])
      else .isFalse (by intro hc; cases hc; exact h rfl)

/-! ### Checkpoint planner

Embeds the iteration-list construction in the `TMetricsPlotCalcer`
constructor (plot.cpp lines 46-51):

    for (ui32 iteration = First; iteration < Last; iteration += Step) {
        Iterations.push_back(iteration);
    }
    if (Iterations.back() != Last - 1) {
        Iterations.push_back(Last - 1);
    }
-/

/-- The `for (iteration = first; iteration < last; iteration += step)` loop.
When `step = 0` the C++ loop would not terminate; the model returns the
prefix collected so far (claims only concern `step ≥ 1`). -/
def collectIterations (last step : Nat) (first : Nat) : List Nat :=
  if _h : first < last ∧ 0 < step then
    first :: collectIterations last step (first + step)
  else
    []
termination_by last - first
decreasing_by omega

/-- The full iteration list built by the constructor: the loop output,
with `last - 1` appended when the loop's final value is not `last - 1`. -/
def buildIterations (first last step : Nat) : List Nat :=
  if (collectIterations last step first).getLast? = some (last - 1) then
    collectIterations last step first
  else
    collectIterations last step first ++ [last - 1]

/-! ### Metric classifier

Embeds the metric-partitioning loop of the constructor
(plot.cpp lines 52-64).  A metric's `Eval` and `GetFinalError` virtual
calls are external collaborators, so a metric is modelled by its
additivity flag, its error type, and its finalization function
(accumulators of type `A` are opaque). -/

/-- Error type of a metric (`EErrorType`). -/
inductive EErrorType where
  | PerObjectError
  | QuerywiseError
  | PairwiseError
deriving DecidableEq

/-- The face of an `IMetric` that the plot calcer uses. -/
structure Metric (A : Type) where
  isAdditive : Bool
  errorType : EErrorType
  finalError : A → ℚ

/-- Result of the classification loop: the additive / non-additive metric
groups together with each group member's original slot index
(`AdditiveMetrics` / `AdditiveMetricsIndices` /
`NonAdditiveMetrics` / `NonAdditiveMetricsIndices`). -/
structure Classified (A : Type) where
  additiveMetrics : List (Metric A)
  additiveIndices : List Nat
  nonAdditiveMetrics : List (Metric A)
  nonAdditiveIndices : List Nat

/-- The classification loop of the constructor, carrying the current
metric index.  A non-additive metric whose error type is not
`PerObjectError` trips the `CB_ENSURE`. -/
def classifyGo {A : Type} : Nat → List (Metric A) → Except String (Classified A)
  | _, [] => .ok ⟨[], [], [], []⟩
  | idx, m :: rest =>
    if m.isAdditive then
      match classifyGo (idx + 1) rest with
      | .error e => .error e
      | .ok c => .ok ⟨m :: c.additiveMetrics, idx :: c.additiveIndices,
                      c.nonAdditiveMetrics, c.nonAdditiveIndices⟩
    else if m.errorType = EErrorType.PerObjectError then
      match classifyGo (idx + 1) rest with
      | .error e => .error e
      | .ok c => .ok ⟨c.additiveMetrics, c.additiveIndices,
                      m :: c.nonAdditiveMetrics, idx :: c.nonAdditiveIndices⟩
    else
      .error "Error: we don't support non-additive querywise and pairwise metrics currenty"

/-- The classification loop started at metric index 0. -/
def classifyMetrics {A : Type} (ms : List (Metric A)) : Except String (Classified A) :=
  classifyGo 0 ms

/-- A metric that forgets its evaluation: only the classification fields
matter for the classifier witnesses. -/
def mkMetric (add : Bool) (et : EErrorType) : Metric ℚ :=
  ⟨add, et, fun _ => 0⟩

/-! ### Approximation accumulator

Embeds `InitApproxBuffer`, `GetDocCount`, `Append`, and the checkpoint
loop of `ProceedDataSet` (plot.cpp lines 91-99, 147-193, 201-250).
The model-inference kernel is abstracted as
`applier : Nat → Nat → Mat` giving the raw-score delta for a half-open
tree range, exactly as `TModelCalcerOnPool::ApplyModelMulti` is called. -/

/-- The face of a `TProcessedDataProvider` that the embedded code reads:
its object count and its (possibly absent) baseline,
`[outputDimension][document]`; an empty outer list means no baseline. -/
structure DatasetPart where
  docCount : Nat
  baseline : List (List ℚ)
deriving Inhabited, DecidableEq

/-- Embeds `GetDocCount` (plot.cpp lines 147-153): total object count over parts. -/
def getDocCount (parts : List DatasetPart) : Nat :=
  (parts.map (·.docCount)).sum

/-- Embeds `InitApproxBuffer` (plot.cpp lines 155-193): sizes the matrix to the
output dimension; for a non-empty part list, seeds every row either with
the concatenated per-part baselines (when part 0 has a baseline and
seeding is requested) or with zeros, after checking that all parts agree
with part 0 on baseline presence. -/
def initApproxBuffer (approxDimension : Nat) (parts : List DatasetPart)
    (initBaselineIfAvailable : Bool) : Except String Mat :=
  if parts.isEmpty then .ok (List.replicate approxDimension []) else
  if initBaselineIfAvailable
      && !(parts.tail.all fun p =>
            p.baseline.isEmpty == (parts.headD default).baseline.isEmpty) then
    .error "Inconsistent baseline specification between dataset parts"
  else
    let hasBaseline := initBaselineIfAvailable && !(parts.headD default).baseline.isEmpty
    .ok <| (List.range approxDimension).map fun d =>
      if hasBaseline then
        (parts.map fun p => p.baseline.getD d []).flatten
      else
        List.replicate (getDocCount parts) 0

/-- The parallel-for body of `Append`: `dst[s+i] += src[i]` for
`i < docCount` (writes to distinct positions, modelled pointwise). -/
def addIntoRow (dst src : List ℚ) (s docCount : Nat) : List ℚ :=
  (List.range dst.length).map fun j =>
    if s ≤ j ∧ j < s + docCount then dst.getD j 0 + src.getD (j - s) 0 else dst.getD j 0

/-- The row loop of `Append` (plot.cpp lines 91-99), given the document
count read from `approx[0]`. -/
def appendPure (approx dst : Mat) (s : Nat) : Mat :=
  (List.range dst.length).map fun d =>
    if d < approx.length then
      addIntoRow (dst.getD d []) (approx.getD d []) s (approx.getD 0 []).length
    else dst.getD d []

/-- Embeds `TMetricsPlotCalcer::Append`.  Modelled from the spec: a zero-row
delta matrix ("zero output dimension") is a fatal configuration error;
in the source the guard is absent and `approx[0]` is read through
`TVector::operator[]`, whose behaviour on an empty vector is defined
outside `src/`. -/
def appendApprox (approx dst : Mat) (s : Nat) : Except String Mat :=
  if approx.isEmpty then .error "zero output dimension" else
  .ok (appendPure approx dst s)

/-- The sequence of `(treeBegin, treeEnd)` arguments that
`ProceedDataSet`'s loop passes to `ApplyModelMulti`
(`end = Iterations[i] + 1; ...; begin = end`). -/
def applierCalls : List Nat → Nat → List (Nat × Nat)
  | [], _ => []
  | it :: rest, treeBegin => (treeBegin, it + 1) :: applierCalls rest (it + 1)

/-- The checkpoint loop of `ProceedDataSet` (plot.cpp lines 229-245):
for each checkpoint, obtain the delta for the next tree range, add it
into the running matrix, and emit the matrix (to additive evaluation or
to the snapshot file). -/
def runCheckpoints (applier : Nat → Nat → Mat) :
    List Nat → Nat → Mat → Except String (List Mat)
  | [], _, _ => .ok []
  | it :: rest, treeBegin, cur =>
    match appendApprox (applier treeBegin (it + 1)) cur 0 with
    | .error e => .error e
    | .ok next =>
      match runCheckpoints applier rest (it + 1) next with
      | .error e => .error e
      | .ok snaps => .ok (next :: snaps)

/-- One window pass of the non-additive flow
(`ProceedDataSetForNonAdditiveMetrics` + `ProceedDataSet` +
`FinishProceedDataSetForNonAdditiveMetrics`, plot.cpp lines 106-135 and
201-250): window `[b, min (b+stepW) n)`; when `b = 0` the matrix starts
from the freshly initialized buffer and the tree range starts at 0;
otherwise the matrix is reloaded from the snapshot of checkpoint `b-1`
and — exactly as the source line 221 computes — the tree range starts at
`Iterations[b]`.  Produced snapshots are appended to `acc`. -/
def runWindowsGo (applier : Nat → Nat → Mat) (iters : List Nat) (stepW : Nat)
    (initBuf : Mat) : Nat → Nat → List Mat → Except String (List Mat)
  | 0, _, acc => .ok acc
  | fuel + 1, b, acc =>
    if b < iters.length then
      match runCheckpoints applier
          ((iters.drop b).take (min (b + stepW) iters.length - b))
          (if b = 0 then 0 else iters.getD b 0)
          (if b = 0 then initBuf else acc.getD (b - 1) []) with
      | .error err => .error err
      | .ok snaps =>
        runWindowsGo applier iters stepW initBuf fuel
          (min (b + stepW) iters.length) (acc ++ snaps)
    else .ok acc

/-- The full windowed non-additive pass: alternating
`ProceedDataSetForNonAdditiveMetrics` / `Finish...` calls until every
checkpoint index is processed. -/
def runWindows (applier : Nat → Nat → Mat) (iters : List Nat) (stepW : Nat)
    (initBuf : Mat) : Except String (List Mat) :=
  runWindowsGo applier iters stepW initBuf iters.length 0 []

/-- The windowed pass as the spec intends resumption: the tree range of a
window starting at checkpoint index `b > 0` continues from
`Iterations[b-1] + 1`, the first tree not yet contained in the reloaded
snapshot of checkpoint `b-1`.  This differs from the source only in the
resume line (`begin = Iterations[beginIterationIndex]` at plot.cpp:221). -/
def runWindowsIntendedGo (applier : Nat → Nat → Mat) (iters : List Nat) (stepW : Nat)
    (initBuf : Mat) : Nat → Nat → List Mat → Except String (List Mat)
  | 0, _, acc => .ok acc
  | fuel + 1, b, acc =>
    if b < iters.length then
      match runCheckpoints applier
          ((iters.drop b).take (min (b + stepW) iters.length - b))
          (if b = 0 then 0 else iters.getD (b - 1) 0 + 1)
          (if b = 0 then initBuf else acc.getD (b - 1) []) with
      | .error err => .error err
      | .ok snaps =>
        runWindowsIntendedGo applier iters stepW initBuf fuel
          (min (b + stepW) iters.length) (acc ++ snaps)
    else .ok acc

/-- Runs `runWindowsIntendedGo` from a fresh state. -/
def runWindowsIntended (applier : Nat → Nat → Mat) (iters : List Nat) (stepW : Nat)
    (initBuf : Mat) : Except String (List Mat) :=
  runWindowsIntendedGo applier iters stepW initBuf iters.length 0 []

/-- A concrete one-document, one-dimension ensemble in which tree `t`
contributes `2*t + 1` to the raw score, so the delta of the half-open
tree range `[b, e)` is `e^2 - b^2` and the set of applied trees is
visible in the prediction value. -/
def exApplier : Nat → Nat → Mat := fun b e => [[((e * e - b * b : Nat) : ℚ)]]

/-! ### Snapshot serialization

Embeds `SaveApproxToFile` (plot.cpp lines 353-367) and the static `Load`
(lines 137-145).  A snapshot file is the list of its serialized lines,
one line (a row of doubles across output dimensions) per document. -/

/-- Embeds `SaveApproxToFile`: serializes document-by-document; line `i` holds
`approx[dim][i]` for every output dimension `dim`; the document count is
read from row 0. -/
def saveApprox (approx : Mat) : List (List ℚ) :=
  (List.range (approx.getD 0 []).length).map fun i =>
    approx.map fun row => row.getD i 0

/-- The static `Load`: fills a `[dim][docCount]` matrix, entry
`[d][i]` coming from component `d` of line `i`. -/
def loadApproxFile (docCount dim : Nat) (file : List (List ℚ)) : Mat :=
  (List.range dim).map fun d =>
    (List.range docCount).map fun i => (file.getD i []).getD d 0

/-! ### Additive metric accumulation across chunks

`ComputeAdditiveMetric` (plot.cpp lines 69-89) evaluates a metric on the
current chunk and merges the result into the `(metric, checkpoint)`
accumulator with `TMetricHolder::Add`.  Across several chunks the cell
therefore holds a left fold of merges starting from the
default-constructed accumulator. -/

/-- The accumulator of one `(metric, checkpoint)` cell after feeding a
sequence of dataset chunks: each chunk's evaluation is merged into the
running total (`AdditiveMetricPlots[metricId][plotLineIndex].Add(...)`). -/
def processChunksAdditive {A C : Type} (merge : A → A → A) (eval : C → A)
    (init : A) (chunks : List C) : A :=
  chunks.foldl (fun acc c => merge acc (eval c)) init

/-! ### Shape and cell lemmas for the checkpoint loop -/

/-- A prediction matrix of `dim` rows, each of `docCount` columns. -/
def MatShape (m : Mat) (dim docCount : Nat) : Prop :=
  m.length = dim ∧ ∀ row ∈ m, row.length = docCount

/-- Total version of the checkpoint loop (the error branch is
unreachable for a positive output dimension). -/
def pureRun (applier : Nat → Nat → Mat) : List Nat → Nat → Mat → List Mat
  | [], _, _ => []
  | it :: rest, treeBegin, cur =>
    appendPure (applier treeBegin (it + 1)) cur 0 ::
      pureRun applier rest (it + 1) (appendPure (applier treeBegin (it + 1)) cur 0)

/-- A constant-delta applier of shape 2×2 for the tiling witness. -/
def constApplier : Nat → Nat → Mat := fun _ _ => [[1, 1], [2, 2]]

/-! ### Score-matrix assembly

Embeds `GetMetricsScore` (plot.cpp lines 414-425): a
`[metricCount][iterationCount]` matrix is filled by, for every iteration
column, writing each additive metric's finalized accumulator at its
original slot row, then each non-additive metric's. -/

instance {A : Type} : Inhabited (Metric A) :=
  ⟨⟨true, EErrorType.PerObjectError, fun _ => 0⟩⟩

/-- Writes `metricsScore[r][c] = v`, leaving every other cell unchanged
(writes outside the matrix are dropped, as they cannot occur). -/
def setCell (m : Mat) (r c : Nat) (v : ℚ) : Mat :=
  m.set r ((m.getD r []).set c v)

/-- Read a cell of the score matrix. -/
def getCell (m : Mat) (r c : Nat) : ℚ :=
  (m.getD r []).getD c 0

/-- One inner loop of `GetMetricsScore`: for each group-local metric id
in `mids`, write that metric's value for iteration column `i` at its
original slot row. -/
def scatterCol (rowOf : Nat → Nat) (i : Nat) (valOf : Nat → ℚ) (mids : List Nat)
    (m : Mat) : Mat :=
  mids.foldl (fun acc mid => setCell acc (rowOf mid) i (valOf mid)) m

/-- Embeds `GetMetricsScore`: over a zero matrix of one row per metric and one
column per checkpoint, for every iteration write the finalized additive
accumulators and then the finalized non-additive accumulators at their
original slots. -/
def getMetricsScore {A : Type} [Inhabited A] (cl : Classified A) (numIters : Nat)
    (aPlots naPlots : List (List A)) : Mat :=
  (List.range numIters).foldl (fun m i =>
      scatterCol (fun mid => cl.nonAdditiveIndices.getD mid 0) i
        (fun mid => (cl.nonAdditiveMetrics.getD mid default).finalError
          ((naPlots.getD mid []).getD i default))
        (List.range cl.nonAdditiveMetrics.length)
        (scatterCol (fun mid => cl.additiveIndices.getD mid 0) i
          (fun mid => (cl.additiveMetrics.getD mid default).finalError
            ((aPlots.getD mid []).getD i default))
          (List.range cl.additiveMetrics.length) m))
    (List.replicate (cl.additiveMetrics.length + cl.nonAdditiveMetrics.length)
      (List.replicate numIters 0))

/-! ### The calcer state

`TMetricsPlotCalcer`'s plot-table state: the checkpoint list, the
classified metrics, and the two accumulator tables sized at construction
(plot.cpp lines 44-67), together with the two operations that write into
them (`ComputeAdditiveMetric`, lines 69-89, merging via
`TMetricHolder::Add`; `ComputeNonAdditiveMetrics`, lines 252-264,
assigning the full-dataset evaluation). -/

/-- Write one accumulator cell of a plot table. -/
def updatePlotCell {A : Type} [Inhabited A] (plots : List (List A)) (mid col : Nat)
    (v : A) : List (List A) :=
  plots.set mid ((plots.getD mid []).set col v)

/-- Embeds `ComputeAdditiveMetric`: merge each additive metric's chunk
evaluation (`results`) into its accumulator for this checkpoint column. -/
def computeAdditiveMetricOp {A : Type} [Inhabited A] (merge : A → A → A)
    (results : Nat → A) (nMetrics plotLineIndex : Nat)
    (plots : List (List A)) : List (List A) :=
  (List.range nMetrics).foldl (fun ps mid =>
    updatePlotCell ps mid plotLineIndex
      (merge ((ps.getD mid []).getD plotLineIndex default) (results mid))) plots

/-- Embeds `ComputeNonAdditiveMetrics(begin, end)`: for each checkpoint index in
the window, assign each non-additive metric's full-dataset evaluation. -/
def computeNonAdditiveMetricsOp {A : Type} [Inhabited A] (results : Nat → Nat → A)
    (nMetrics b e : Nat) (plots : List (List A)) : List (List A) :=
  (List.range' b (e - b)).foldl (fun ps idx =>
    (List.range nMetrics).foldl (fun ps mid =>
      updatePlotCell ps mid idx (results mid idx)) ps) plots

/-- The plot-table state of a `TMetricsPlotCalcer`. -/
structure PlotCalcer (A : Type) where
  iterations : List Nat
  classified : Classified A
  additivePlots : List (List A)
  nonAdditivePlots : List (List A)

/-- The constructor: build the checkpoint list, classify the metrics,
and size each plot table with one row per group metric and one
default-constructed accumulator per checkpoint. -/
def mkPlotCalcer {A : Type} (emptyAcc : A) (ms : List (Metric A))
    (first last step : Nat) : Except String (PlotCalcer A) :=
  match classifyMetrics ms with
  | .error e => .error e
  | .ok cl =>
    .ok ⟨buildIterations first last step, cl,
      List.replicate cl.additiveMetrics.length
        (List.replicate (buildIterations first last step).length emptyAcc),
      List.replicate cl.nonAdditiveMetrics.length
        (List.replicate (buildIterations first last step).length emptyAcc)⟩

/-- Embeds `ComputeAdditiveMetric` as a state transition. -/
def PlotCalcer.computeAdditiveMetric {A : Type} [Inhabited A] (st : PlotCalcer A)
    (merge : A → A → A) (results : Nat → A) (plotLineIndex : Nat) : PlotCalcer A :=
  { st with additivePlots := (computeAdditiveMetricOp merge results
      st.classified.additiveMetrics.length plotLineIndex st.additivePlots) }

/-- Embeds `ComputeNonAdditiveMetrics` as a state transition. -/
def PlotCalcer.computeNonAdditiveMetrics {A : Type} [Inhabited A] (st : PlotCalcer A)
    (results : Nat → Nat → A) (b e : Nat) : PlotCalcer A :=
  { st with nonAdditivePlots := (computeNonAdditiveMetricsOp results
      st.classified.nonAdditiveMetrics.length b e st.nonAdditivePlots) }

/-- Embeds `GetMetricsScore` on the state. -/
def PlotCalcer.getMetricsScore {A : Type} [Inhabited A] (st : PlotCalcer A) : Mat :=
  CatboostPlot.getMetricsScore st.classified st.iterations.length
    st.additivePlots st.nonAdditivePlots

/-- A plot table of `n` rows with one accumulator per checkpoint. -/
def PlotShape {A : Type} (plots : List (List A)) (n cols : Nat) : Prop :=
  plots.length = n ∧ ∀ row ∈ plots, row.length = cols

/-- The shape invariant of the calcer established at construction. -/
def ShapeOK {A : Type} (st : PlotCalcer A) : Prop :=
  PlotShape st.additivePlots st.classified.additiveMetrics.length st.iterations.length
  ∧ PlotShape st.nonAdditivePlots st.classified.nonAdditiveMetrics.length
      st.iterations.length

/-- The calcer state produced by constructing with one additive and one
non-additive metric over checkpoints `[0, 1]`. -/
def examplePlotCalcer : PlotCalcer ℚ :=
  ⟨[0, 1],
   ⟨[⟨true, EErrorType.PerObjectError, id⟩], [0],
    [⟨false, EErrorType.PerObjectError, id⟩], [1]⟩,
   [[0, 0]], [[0, 0]]⟩

/-! ### Lemmas and claim theorems -/

theorem collectIterations_eq (last step first : Nat) :
    collectIterations last step first =
      if first < last ∧ 0 < step then
        first :: collectIterations last step (first + step)
      else [] := by
  rw [collectIterations]
  split <;> simp_all

theorem mem_collectIterations {last step : Nat} (hstep : 0 < step) :
    ∀ first x, (x ∈ collectIterations last step first ↔
      ∃ k, x = first + k * step ∧ x < last) := by
  intro first
  induction first using collectIterations.induct last step with
  | case1 first h ih =>
    intro x
    rw [collectIterations_eq]
    simp only [if_pos h, List.mem_cons]
    constructor
    · rintro (rfl | hx)
      · exact ⟨0, by omega, h.1⟩
      · obtain ⟨k, rfl, hk⟩ := (ih x).mp hx
        exact ⟨k + 1, by ring_nf, by omega⟩
    · rintro ⟨k, rfl, hk⟩
      cases k with
      | zero => left; omega
      | succ k =>
        right
        refine (ih _).mpr ⟨k, by ring_nf, by omega⟩
  | case2 first h =>
    intro x
    rw [collectIterations_eq]
    simp only [if_neg h, List.not_mem_nil, false_iff]
    rintro ⟨k, rfl, hk⟩
    exact h ⟨by omega, hstep⟩

theorem collectIterations_chain (last step : Nat) (hstep : 0 < step) :
    ∀ first, List.Chain' (· < ·) (collectIterations last step first) := by
  intro first
  induction first using collectIterations.induct last step with
  | case1 first h ih =>
    rw [collectIterations_eq, if_pos h]
    refine List.chain'_cons'.mpr ⟨?_, ih⟩
    intro y hy
    rw [collectIterations_eq] at hy
    split at hy
    · simp only [List.head?_cons, Option.mem_def, Option.some.injEq] at hy
      omega
    · simp at hy
  | case2 first h =>
    rw [collectIterations_eq, if_neg h]
    exact List.chain'_nil

theorem collectIterations_head {last step first : Nat}
    (h1 : first < last) (h2 : 0 < step) :
    (collectIterations last step first).head? = some first := by
  rw [collectIterations_eq, if_pos ⟨h1, h2⟩]
  rfl

theorem collectIterations_ne_nil {last step first : Nat}
    (h1 : first < last) (h2 : 0 < step) :
    collectIterations last step first ≠ [] := by
  rw [collectIterations_eq, if_pos ⟨h1, h2⟩]
  simp

theorem mem_buildIterations {first last step : Nat}
    (_h1 : first < last) (h2 : 1 ≤ step) (x : Nat) :
    x ∈ buildIterations first last step ↔
      ((∃ k, x = first + k * step ∧ x < last) ∨ x = last - 1) := by
  unfold buildIterations
  split
  case isTrue hlast =>
    rw [mem_collectIterations h2]
    constructor
    · exact Or.inl
    · rintro (hx | rfl)
      · exact hx
      · have := List.mem_of_mem_getLast? (l := collectIterations last step first)
          (a := last - 1) (by rw [hlast]; rfl)
        exact (mem_collectIterations h2 first _).mp this
  case isFalse hlast =>
    rw [List.mem_append, mem_collectIterations h2]
    simp only [List.mem_singleton]

/-- C2: the checkpoint list is the arithmetic progression
`first, first+step, …` of all values `< last`, with `last-1` appended when
the progression does not already end there; it is strictly increasing,
starts at `first`, ends at `last-1`, and the two scenario instances from
the spec hold. -/
theorem checkpoint_list_correct (first last step : Nat)
    (h1 : first < last) (h2 : 1 ≤ step) :
    List.Chain' (· < ·) (buildIterations first last step)
    ∧ (buildIterations first last step).head? = some first
    ∧ (buildIterations first last step).getLast? = some (last - 1)
    ∧ (∀ x, x ∈ buildIterations first last step ↔
        ((∃ k, x = first + k * step ∧ x < last) ∨ x = last - 1))
    ∧ buildIterations 0 10 5 = [0, 5, 9]
    ∧ buildIterations 0 10 3 = [0, 3, 6, 9] := by
  have hchain := collectIterations_chain last step h2 first
  have hne := collectIterations_ne_nil h1 h2
  have hhead := collectIterations_head h1 h2
  have hmemlt : ∀ x ∈ collectIterations last step first, x < last := by
    intro x hx
    obtain ⟨k, rfl, hk⟩ := (mem_collectIterations h2 first x).mp hx
    exact hk
  refine ⟨?_, ?_, ?_, mem_buildIterations h1 h2, ?_, ?_⟩
  · unfold buildIterations
    split
    case isTrue hlast => exact hchain
    case isFalse hlast =>
      rw [List.chain'_append]
      refine ⟨hchain, List.chain'_singleton _, ?_⟩
      intro x hx y hy
      simp only [List.head?_cons, Option.mem_def, Option.some.injEq] at hy
      subst hy
      have hxmem := List.mem_of_mem_getLast? (l := collectIterations last step first) hx
      have hxlt := hmemlt x hxmem
      have hxne : x ≠ last - 1 := by
        intro h
        apply hlast
        rw [← h]
        exact (List.getLast?_eq_getLast_of_ne_nil hne).trans (by
          congr 1
          exact ((List.mem_getLast?_eq_getLast hx).choose_spec).symm)
      omega
  · unfold buildIterations
    split
    case isTrue hlast => exact hhead
    case isFalse hlast =>
      rcases hl : collectIterations last step first with _ | ⟨a, t⟩
      · exact absurd hl hne
      · rw [hl] at hhead
        simpa using hhead
  · unfold buildIterations
    split
    case isTrue hlast => exact hlast
    case isFalse hlast => exact List.getLast?_concat _
  · simp [buildIterations, collectIterations_eq]
  · simp [buildIterations, collectIterations_eq]

/-- Witness for `checkpoint_list_correct` at the concrete spec scenarios. -/
theorem checkpoint_list_correct_witness :
    buildIterations 0 10 5 = [0, 5, 9] ∧ buildIterations 0 10 3 = [0, 3, 6, 9] :=
  ⟨(checkpoint_list_correct 0 10 5 (by decide) (by decide)).2.2.2.2.1,
   (checkpoint_list_correct 0 10 3 (by decide) (by decide)).2.2.2.2.2⟩

theorem classifyGo_ok {A : Type} (ms : List (Metric A)) :
    ∀ idx, (∀ m ∈ ms, m.isAdditive = false → m.errorType = EErrorType.PerObjectError) →
      classifyGo idx ms = .ok
        ⟨ms.filter (·.isAdditive),
         ((ms.enumFrom idx).filter (fun p => p.2.isAdditive)).map (·.1),
         ms.filter (fun m => !m.isAdditive),
         ((ms.enumFrom idx).filter (fun p => !p.2.isAdditive)).map (·.1)⟩ := by
  induction ms with
  | nil => intro idx _; rfl
  | cons m rest ih =>
    intro idx hgood
    have hrest : ∀ m ∈ rest, m.isAdditive = false →
        m.errorType = EErrorType.PerObjectError := by
      intro x hx
      exact hgood x (List.mem_cons_of_mem _ hx)
    rw [classifyGo]
    rcases hadd : m.isAdditive with _ | _
    · have hpo : m.errorType = EErrorType.PerObjectError :=
        hgood m (List.mem_cons_self _ _) hadd
      simp only [Bool.false_eq_true, if_false, hpo, if_pos rfl, ih (idx + 1) hrest]
      simp [List.enumFrom_cons, List.filter_cons, hadd]
    · simp only [if_pos rfl, ih (idx + 1) hrest]
      simp [List.enumFrom_cons, List.filter_cons, hadd]

theorem classifyGo_error {A : Type} (ms : List (Metric A)) :
    ∀ idx, (∃ m ∈ ms, m.isAdditive = false ∧ m.errorType ≠ EErrorType.PerObjectError) →
      ∃ e, classifyGo idx ms = .error e := by
  induction ms with
  | nil => rintro idx ⟨m, hm, _⟩; cases hm
  | cons m rest ih =>
    rintro idx ⟨x, hx, hxadd, hxet⟩
    rw [classifyGo]
    rcases List.mem_cons.mp hx with rfl | hxrest
    · rw [hxadd]
      simp only [Bool.false_eq_true, if_false, if_neg hxet]
      exact ⟨_, rfl⟩
    · obtain ⟨e, he⟩ := ih (idx + 1) ⟨x, hxrest, hxadd, hxet⟩
      by_cases hadd : m.isAdditive = true
      · rw [if_pos hadd, he]
        exact ⟨e, rfl⟩
      · rw [if_neg hadd]
        by_cases hpo : m.errorType = EErrorType.PerObjectError
        · rw [if_pos hpo, he]
          exact ⟨e, rfl⟩
        · rw [if_neg hpo]
          exact ⟨_, rfl⟩

theorem mem_enumFilterIdx {A : Type} (p : Metric A → Bool) (ms : List (Metric A)) (i : Nat) :
    (i ∈ ((ms.enum.filter (fun q => p q.2)).map (·.1)) ↔
      ∃ h : i < ms.length, p (ms.get ⟨i, h⟩) = true) := by
  simp only [List.mem_map, List.mem_filter]
  constructor
  · rintro ⟨⟨j, m⟩, ⟨hmem, hp⟩, rfl⟩
    have hj := List.mk_mem_enum_iff_getElem?.mp hmem
    have hlt : j < ms.length := (List.getElem?_eq_some_iff.mp hj).1
    refine ⟨hlt, ?_⟩
    have : ms[j] = m := by
      have := (List.getElem?_eq_some_iff.mp hj).2
      exact this
    simpa [List.get_eq_getElem, this] using hp
  · rintro ⟨h, hp⟩
    refine ⟨(i, ms.get ⟨i, h⟩), ⟨?_, hp⟩, rfl⟩
    exact List.mk_mem_enum_iff_getElem?.mpr (by simp [List.getElem?_eq_some_iff, h])

/-- C6: construction classifies metrics in caller order into the
additive and non-additive groups, recording original slot indices;
it fails with the configuration error exactly when some non-additive
metric has an error type other than `PerObjectError`, and otherwise each
metric index lands in exactly one group. -/
theorem metric_classification {A : Type} (ms : List (Metric A)) :
    ((∀ m ∈ ms, m.isAdditive = false → m.errorType = EErrorType.PerObjectError) →
        classifyMetrics ms = .ok
          ⟨ms.filter (·.isAdditive),
           (ms.enum.filter (fun p => p.2.isAdditive)).map (·.1),
           ms.filter (fun m => !m.isAdditive),
           (ms.enum.filter (fun p => !p.2.isAdditive)).map (·.1)⟩)
    ∧ ((∃ m ∈ ms, m.isAdditive = false ∧ m.errorType ≠ EErrorType.PerObjectError) →
        ∃ e, classifyMetrics ms = .error e)
    ∧ (∀ c, classifyMetrics ms = .ok c → ∀ i,
        (i ∈ c.additiveIndices ↔ ∃ h : i < ms.length, (ms.get ⟨i, h⟩).isAdditive = true)
        ∧ (i ∈ c.nonAdditiveIndices ↔
            ∃ h : i < ms.length, (ms.get ⟨i, h⟩).isAdditive = false)) := by
  refine ⟨fun hgood => classifyGo_ok ms 0 hgood, fun hbad => classifyGo_error ms 0 hbad, ?_⟩
  intro c hc i
  have hgood : ∀ m ∈ ms, m.isAdditive = false → m.errorType = EErrorType.PerObjectError := by
    by_contra hbad
    push_neg at hbad
    obtain ⟨m, hm, hadd, het⟩ := hbad
    obtain ⟨e, he⟩ := classifyGo_error ms 0 ⟨m, hm, hadd, het⟩
    rw [classifyMetrics, he] at hc
    cases hc
  rw [classifyMetrics, classifyGo_ok ms 0 hgood] at hc
  cases hc
  constructor
  · simpa using mem_enumFilterIdx (fun m => m.isAdditive) ms i
  · simpa using mem_enumFilterIdx (fun m => !m.isAdditive) ms i

/-- Witness for `metric_classification`: an additive querywise metric is
accepted, a non-additive querywise metric is rejected. -/
theorem metric_classification_witness :
    classifyMetrics [mkMetric true EErrorType.QuerywiseError,
                     mkMetric false EErrorType.PerObjectError] = .ok
      ⟨[mkMetric true EErrorType.QuerywiseError], [0],
       [mkMetric false EErrorType.PerObjectError], [1]⟩
    ∧ ∃ e, classifyMetrics [mkMetric false EErrorType.QuerywiseError] = .error e := by
  constructor
  · exact ((metric_classification _).1 (by simp [mkMetric])).trans (by rfl)
  · exact (metric_classification _).2.1 ⟨mkMetric false EErrorType.QuerywiseError,
      by simp [mkMetric]⟩

/-- C1 (code bug): with checkpoints `[0, 5, 9]` (first=0, last=10,
step=5) and window size 1, resuming from the persisted snapshot does NOT
reproduce the uninterrupted pass: the source resumes the tree range at
`Iterations[b]` instead of `Iterations[b-1] + 1` (plot.cpp line 221), so
trees `[Iterations[b-1]+1, Iterations[b])` are skipped at every window
boundary.  At checkpoint 5 the windowed run predicts 12 where the
uninterrupted run predicts 36; with the intended resume point the
windowed run matches the uninterrupted one exactly. -/
theorem resume_from_snapshot_skips_trees :
    runWindows exApplier [0, 5, 9] 1 [[0]] = .ok [[[1]], [[12]], [[31]]]
    ∧ runCheckpoints exApplier [0, 5, 9] 0 [[0]] = .ok [[[1]], [[36]], [[100]]]
    ∧ runWindows exApplier [0, 5, 9] 1 [[0]]
        ≠ runCheckpoints exApplier [0, 5, 9] 0 [[0]]
    ∧ runWindowsIntended exApplier [0, 5, 9] 1 [[0]]
        = runCheckpoints exApplier [0, 5, 9] 0 [[0]] := by
  refine ⟨?_, ?_, ?_, ?_⟩
  · with_unfolding_all rfl
  · with_unfolding_all rfl
  · intro h
    have h12 : ([[(12:ℚ)]] : Mat) = [[36]] := by
      have h1 : runWindows exApplier [0, 5, 9] 1 [[0]] = .ok [[[1]], [[12]], [[31]]] := by
        with_unfolding_all rfl
      have h2 : runCheckpoints exApplier [0, 5, 9] 0 [[0]] = .ok [[[1]], [[36]], [[100]]] := by
        with_unfolding_all rfl
      rw [h1, h2] at h
      injection h with h
      exact (List.cons.injEq _ _ _ _).mp ((List.cons.injEq _ _ _ _).mp h).2 |>.1
    have : (12 : ℚ) = 36 := by
      have := (List.cons.injEq _ _ _ _).mp h12 |>.1
      exact ((List.cons.injEq _ _ _ _).mp this).1
    norm_num at this
  · with_unfolding_all rfl

theorem getD_map_range {α : Type} (n : Nat) (f : Nat → α) (i : Nat) (h : i < n)
    (dflt : α) : ((List.range n).map f).getD i dflt = f i := by
  rw [List.getD_eq_getElem _ _ (by simpa using h)]
  simp

/-- C4: persisting a prediction matrix (serialized document-by-document
as a row of doubles across output dimensions) and reloading it with the
same document count and output dimension is the identity. -/
theorem snapshot_roundtrip (approx : Mat) (dim docCount : Nat)
    (hdim : approx.length = dim) (h1 : 0 < dim)
    (hrows : ∀ row ∈ approx, row.length = docCount) :
    loadApproxFile docCount dim (saveApprox approx) = approx := by
  subst hdim
  have hrow0 : (approx.getD 0 []).length = docCount := by
    apply hrows
    rw [List.getD_eq_getElem _ _ h1]
    exact List.getElem_mem h1
  unfold loadApproxFile saveApprox
  rw [hrow0]
  apply List.ext_getElem
  · simp
  intro d hd1 hd2
  simp only [List.length_map, List.length_range] at hd1
  simp only [List.getElem_map, List.getElem_range]
  apply List.ext_getElem
  · simpa using (hrows _ (List.getElem_mem hd2)).symm
  intro i hi1 hi2
  simp only [List.length_map, List.length_range] at hi1
  simp only [List.getElem_map, List.getElem_range]
  rw [getD_map_range docCount _ i hi1]
  rw [List.getD_eq_getElem _ _ (by simpa using hd2)]
  simp only [List.getElem_map]
  rw [List.getD_eq_getElem _ _ hi2]

/-- Witness for `snapshot_roundtrip` on a concrete 2×2 matrix. -/
theorem snapshot_roundtrip_witness :
    (0 : Nat) < 2 ∧ loadApproxFile 2 2 (saveApprox [[1, 2], [3, 4]]) = [[1, 2], [3, 4]] :=
  ⟨by decide,
   snapshot_roundtrip [[1, 2], [3, 4]] 2 2 (by decide) (by decide) (by decide)⟩

/-- C5: with an associative, commutative accumulator merge (with the
default-constructed accumulator neutral) and an additive metric
(evaluation distributes over chunk concatenation), feeding the chunks in
any order produces the same accumulator as evaluating the whole dataset
as a single chunk. -/
theorem additive_chunk_order_invariance {A D : Type}
    (merge : A → A → A) (eval : List D → A) (empty : A)
    (hassoc : ∀ a b c, merge (merge a b) c = merge a (merge b c))
    (hcomm : ∀ a b, merge a b = merge b a)
    (hid : ∀ a, merge empty a = a)
    (hnil : eval [] = empty)
    (hadd : ∀ xs ys, eval (xs ++ ys) = merge (eval xs) (eval ys))
    (chunks chunksPerm : List (List D)) (hperm : chunks.Perm chunksPerm) :
    processChunksAdditive merge eval empty chunksPerm = eval chunks.flatten := by
  have key : ∀ (cs : List (List D)) (a : A),
      cs.foldl (fun acc c => merge acc (eval c)) a = merge a (eval cs.flatten) := by
    intro cs
    induction cs with
    | nil =>
      intro a
      simp only [List.foldl_nil, List.flatten_nil, hnil]
      rw [hcomm, hid]
    | cons c cs ih =>
      intro a
      simp only [List.foldl_cons, List.flatten_cons, hadd]
      rw [ih, hassoc]
  have hfold : processChunksAdditive merge eval empty chunksPerm
      = processChunksAdditive merge eval empty chunks := by
    unfold processChunksAdditive
    refine hperm.symm.foldl_eq' ?_ empty
    intro x _ y _ z
    rw [hassoc, hassoc, hcomm (eval x) (eval y)]
  rw [hfold]
  unfold processChunksAdditive
  rw [key, hid]

/-- Witness for `additive_chunk_order_invariance`: a sum-of-values metric
over ℕ, chunks fed in swapped order. -/
theorem additive_chunk_order_invariance_witness :
    processChunksAdditive (· + ·) List.sum 0 [[2, 3], [1]]
      = List.sum (([[1], [2, 3]] : List (List Nat)).flatten) :=
  additive_chunk_order_invariance (· + ·) List.sum 0
    (fun a b c => Nat.add_assoc a b c) (fun a b => Nat.add_comm a b)
    (fun a => Nat.zero_add a) rfl (fun xs ys => List.sum_append)
    [[1], [2, 3]] [[2, 3], [1]] (by decide)

/-- C8: with baseline seeding enabled on a non-empty part list, any
disagreement between a part and part 0 on baseline presence makes
`InitApproxBuffer` fail with the configuration error; when all parts
agree, the matrix is seeded with the concatenated baselines if part 0
has one, and zero-initialized otherwise. -/
theorem baseline_seeding (dim : Nat) (parts : List DatasetPart) (hne : parts ≠ []) :
    ((∃ p ∈ parts.tail, p.baseline.isEmpty ≠ (parts.headD default).baseline.isEmpty) →
        ∃ e, initApproxBuffer dim parts true = .error e)
    ∧ ((∀ p ∈ parts.tail, p.baseline.isEmpty = (parts.headD default).baseline.isEmpty) →
        ((parts.headD default).baseline.isEmpty = false →
            initApproxBuffer dim parts true = .ok ((List.range dim).map fun d =>
              (parts.map fun p => p.baseline.getD d []).flatten))
        ∧ ((parts.headD default).baseline.isEmpty = true →
            initApproxBuffer dim parts true
              = .ok (List.replicate dim (List.replicate (getDocCount parts) 0)))) := by
  have hempty : parts.isEmpty = false := by
    cases parts
    · exact absurd rfl hne
    · rfl
  constructor
  · rintro ⟨p, hp, hdisagree⟩
    unfold initApproxBuffer
    rw [hempty]
    have hall : (parts.tail.all fun p =>
        p.baseline.isEmpty == (parts.headD default).baseline.isEmpty) = false := by
      rw [List.all_eq_false]
      exact ⟨p, hp, by simpa using hdisagree⟩
    rw [hall]
    exact ⟨_, rfl⟩
  · intro hagree
    have hall : (parts.tail.all fun p =>
        p.baseline.isEmpty == (parts.headD default).baseline.isEmpty) = true := by
      rw [List.all_eq_true]
      intro p hp
      simpa using hagree p hp
    constructor
    · intro hhead
      unfold initApproxBuffer
      rw [hempty, hall]
      simp only [Bool.not_true, Bool.and_false, Bool.false_eq_true, if_false,
        Bool.true_and, hhead, Bool.not_false, if_true]
    · intro hhead
      unfold initApproxBuffer
      rw [hempty, hall]
      simp only [Bool.not_true, Bool.and_false, Bool.false_eq_true, if_false,
        Bool.true_and, hhead, if_false]
      congr 1
      have : ∀ x : List ℚ, (List.range dim).map (fun _ => x) = List.replicate dim x := by
        intro x
        rw [List.map_const', List.length_range]
      exact this _

/-- Witness for `baseline_seeding`: mismatched parts are rejected,
agreeing parts with baselines are concatenated, a baseline-free part
list is zero-seeded. -/
theorem baseline_seeding_witness :
    (∃ e, initApproxBuffer 1 [⟨1, [[5]]⟩, ⟨1, []⟩] true = .error e)
    ∧ initApproxBuffer 1 [⟨1, [[5]]⟩, ⟨1, [[7]]⟩] true = .ok [[5, 7]]
    ∧ initApproxBuffer 1 [⟨2, []⟩] true = .ok [[0, 0]] :=
  ⟨(baseline_seeding 1 [⟨1, [[5]]⟩, ⟨1, []⟩] (by decide)).1
      ⟨⟨1, []⟩, by decide, by decide⟩,
   (((baseline_seeding 1 [⟨1, [[5]]⟩, ⟨1, [[7]]⟩] (by decide)).2
      (by decide)).1 (by decide)).trans (by decide),
   (((baseline_seeding 1 [⟨2, []⟩] (by decide)).2
      (by decide)).2 (by decide)).trans (by decide)⟩

theorem MatShape.row_getD {m : Mat} {dim docCount : Nat} (h : MatShape m dim docCount)
    {d : Nat} (hd : d < dim) : (m.getD d []).length = docCount := by
  have hd' : d < m.length := h.1 ▸ hd
  rw [List.getD_eq_getElem _ _ hd']
  exact h.2 _ (List.getElem_mem hd')

theorem addIntoRow_length (dst src : List ℚ) (s dc : Nat) :
    (addIntoRow dst src s dc).length = dst.length := by
  simp [addIntoRow]

theorem addIntoRow_getD (dst src : List ℚ) (s dc j : Nat) (hj : j < dst.length) :
    (addIntoRow dst src s dc).getD j 0 =
      if s ≤ j ∧ j < s + dc then dst.getD j 0 + src.getD (j - s) 0
      else dst.getD j 0 := by
  unfold addIntoRow
  rw [getD_map_range _ _ j hj]

theorem appendPure_getD (approx dst : Mat) (s d : Nat) (hd : d < dst.length) :
    (appendPure approx dst s).getD d [] =
      if d < approx.length then
        addIntoRow (dst.getD d []) (approx.getD d []) s (approx.getD 0 []).length
      else dst.getD d [] := by
  unfold appendPure
  rw [getD_map_range _ _ d hd]

theorem appendPure_shape {approx dst : Mat} {dim docCount : Nat}
    (hD : MatShape dst dim docCount) (s : Nat) :
    MatShape (appendPure approx dst s) dim docCount := by
  constructor
  · simpa [appendPure] using hD.1
  · intro row hrow
    unfold appendPure at hrow
    obtain ⟨d, hd, hrow⟩ := List.mem_map.mp hrow
    obtain ⟨hdlt, rfl⟩ : d < dst.length ∧ _ := ⟨by simpa using List.mem_range.mp hd, hrow.symm⟩
    have hrowlen : (dst.getD d []).length = docCount :=
      MatShape.row_getD hD (hD.1 ▸ hdlt)
    split
    · rw [addIntoRow_length, hrowlen]
    · exact hrowlen

/-- Element-wise addition of the delta into the running matrix, at the
cell level, for well-shaped inputs. -/
theorem appendPure_cell (approx dst : Mat) (dim docCount : Nat)
    (hA : MatShape approx dim docCount) (hD : MatShape dst dim docCount)
    (hdim : 0 < dim) (d j : Nat) (hd : d < dim) (hj : j < docCount) :
    ((appendPure approx dst 0).getD d []).getD j 0
      = (dst.getD d []).getD j 0 + (approx.getD d []).getD j 0 := by
  have hddst : d < dst.length := hD.1 ▸ hd
  have hdapx : d < approx.length := hA.1 ▸ hd
  have hrow0 : (approx.getD 0 []).length = docCount := MatShape.row_getD hA hdim
  rw [appendPure_getD approx dst 0 d hddst, if_pos hdapx]
  rw [addIntoRow_getD _ _ _ _ j (by rw [MatShape.row_getD hD hd]; exact hj)]
  rw [hrow0]
  simp [hj]

theorem runCheckpoints_eq_pureRun (applier : Nat → Nat → Mat)
    (hap : ∀ b e, (applier b e).isEmpty = false) :
    ∀ (iters : List Nat) (tb : Nat) (cur : Mat),
      runCheckpoints applier iters tb cur = .ok (pureRun applier iters tb cur) := by
  intro iters
  induction iters with
  | nil => intro tb cur; rfl
  | cons it rest ih =>
    intro tb cur
    rw [runCheckpoints, pureRun]
    rw [appendApprox, hap tb (it + 1)]
    simp only [Bool.false_eq_true, if_false]
    rw [ih (it + 1) (appendPure (applier tb (it + 1)) cur 0)]

theorem pureRun_length (applier : Nat → Nat → Mat) :
    ∀ (iters : List Nat) (tb : Nat) (cur : Mat),
      (pureRun applier iters tb cur).length = iters.length := by
  intro iters
  induction iters with
  | nil => intro tb cur; rfl
  | cons it rest ih => intro tb cur; simp [pureRun, ih]

theorem pureRun_shape (applier : Nat → Nat → Mat) {dim docCount : Nat} :
    ∀ (iters : List Nat) (tb : Nat) (cur : Mat), MatShape cur dim docCount →
      ∀ m ∈ pureRun applier iters tb cur, MatShape m dim docCount := by
  intro iters
  induction iters with
  | nil => intro tb cur _ m hm; cases hm
  | cons it rest ih =>
    intro tb cur hcur m hm
    rw [pureRun] at hm
    rcases List.mem_cons.mp hm with rfl | hm
    · exact appendPure_shape hcur 0
    · exact ih (it + 1) _ (appendPure_shape hcur 0) m hm

theorem pureRun_getD_zero (applier : Nat → Nat → Mat)
    (it : Nat) (rest : List Nat) (tb : Nat) (cur : Mat) :
    (pureRun applier (it :: rest) tb cur).getD 0 []
      = appendPure (applier tb (it + 1)) cur 0 := by
  rw [pureRun]
  rfl

theorem pureRun_getD_succ (applier : Nat → Nat → Mat) :
    ∀ (iters : List Nat) (tb : Nat) (cur : Mat) (i : Nat), i + 1 < iters.length →
      (pureRun applier iters tb cur).getD (i + 1) []
        = appendPure (applier (iters.getD i 0 + 1) (iters.getD (i + 1) 0 + 1))
            ((pureRun applier iters tb cur).getD i []) 0 := by
  intro iters
  induction iters with
  | nil => intro tb cur i hi; simp at hi
  | cons it rest ih =>
    intro tb cur i hi
    rcases i with _ | k
    · rcases rest with _ | ⟨r0, rest'⟩
      · simp at hi
      · rw [pureRun]
        simp only [List.getD_cons_succ, List.getD_cons_zero]
        exact pureRun_getD_zero applier r0 rest' (it + 1) _
    · rw [pureRun]
      simp only [List.getD_cons_succ]
      exact ih (it + 1) _ k (by simpa using hi)

theorem applierCalls_length : ∀ (iters : List Nat) (tb : Nat),
    (applierCalls iters tb).length = iters.length := by
  intro iters
  induction iters with
  | nil => intro tb; rfl
  | cons it rest ih => intro tb; simp [applierCalls, ih]

theorem applierCalls_getD_snd : ∀ (iters : List Nat) (tb i : Nat), i < iters.length →
    ((applierCalls iters tb).getD i (0, 0)).2 = iters.getD i 0 + 1 := by
  intro iters
  induction iters with
  | nil => intro tb i hi; simp at hi
  | cons it rest ih =>
    intro tb i hi
    rcases i with _ | k
    · rfl
    · rw [applierCalls]
      simp only [List.getD_cons_succ]
      exact ih (it + 1) k (by simpa using hi)

theorem applierCalls_getD_fst_zero : ∀ (iters : List Nat) (tb : Nat), 0 < iters.length →
    ((applierCalls iters tb).getD 0 (0, 0)).1 = tb := by
  intro iters tb h
  rcases iters with _ | ⟨it, rest⟩
  · simp at h
  · rfl

theorem applierCalls_getD_fst_succ : ∀ (iters : List Nat) (tb i : Nat),
    i + 1 < iters.length →
    ((applierCalls iters tb).getD (i + 1) (0, 0)).1 = iters.getD i 0 + 1 := by
  intro iters
  induction iters with
  | nil => intro tb i hi; simp at hi
  | cons it rest ih =>
    intro tb i hi
    rcases i with _ | k
    · rw [applierCalls]
      simp only [List.getD_cons_succ, List.getD_cons_zero]
      exact applierCalls_getD_fst_zero rest (it + 1) (by simpa using hi)
    · rw [applierCalls]
      simp only [List.getD_cons_succ]
      exact ih (it + 1) k (by simpa using hi)

/-- C3: in a pass starting at checkpoint index 0, the `Applier` is
invoked once per checkpoint; the `i`-th call covers the half-open tree
range whose upper end is `Iterations[i] + 1`, the first call starts at
tree 0, every later call starts exactly where the previous one ended
(so the ranges tile `[0, lastCheckpoint + 1)` without gap or overlap and
are non-empty), and each returned delta is added element-wise into the
running prediction matrix. -/
theorem checkpoint_pass_tiling
    (applier : Nat → Nat → Mat) (iters : List Nat) (init : Mat) (dim docCount : Nat)
    (hdim : 0 < dim)
    (hap : ∀ b e, MatShape (applier b e) dim docCount)
    (hinit : MatShape init dim docCount)
    (hchain : List.Chain' (· < ·) iters) :
    ∃ snaps, runCheckpoints applier iters 0 init = .ok snaps
      ∧ (applierCalls iters 0).length = iters.length
      ∧ snaps.length = iters.length
      ∧ (∀ i, i < iters.length →
          ((applierCalls iters 0).getD i (0, 0)).2 = iters.getD i 0 + 1)
      ∧ (0 < iters.length → ((applierCalls iters 0).getD 0 (0, 0)).1 = 0)
      ∧ (∀ i, i + 1 < iters.length →
          ((applierCalls iters 0).getD (i + 1) (0, 0)).1
            = ((applierCalls iters 0).getD i (0, 0)).2)
      ∧ (∀ i, i < iters.length →
          ((applierCalls iters 0).getD i (0, 0)).1
            < ((applierCalls iters 0).getD i (0, 0)).2)
      ∧ (∀ i, i < iters.length → ∀ d, d < dim → ∀ j, j < docCount →
          ((snaps.getD i []).getD d []).getD j 0
            = ((if i = 0 then init else snaps.getD (i - 1) []).getD d []).getD j 0
              + ((applier ((applierCalls iters 0).getD i (0, 0)).1
                    ((applierCalls iters 0).getD i (0, 0)).2).getD d []).getD j 0) := by
  have hapne : ∀ b e, (applier b e).isEmpty = false := by
    intro b e
    rcases h : applier b e with _ | ⟨r, rows⟩
    · exact absurd ((hap b e).1) (by rw [h]; simp; omega)
    · rfl
  refine ⟨pureRun applier iters 0 init,
    runCheckpoints_eq_pureRun applier hapne iters 0 init,
    applierCalls_length iters 0,
    pureRun_length applier iters 0 init,
    fun i hi => applierCalls_getD_snd iters 0 i hi,
    fun h => applierCalls_getD_fst_zero iters 0 h,
    fun i hi => by
      rw [applierCalls_getD_fst_succ iters 0 i hi,
        applierCalls_getD_snd iters 0 i (by omega)],
    ?_, ?_⟩
  · intro i hi
    rcases i with _ | k
    · rw [applierCalls_getD_fst_zero iters 0 hi, applierCalls_getD_snd iters 0 0 hi]
      omega
    · rw [applierCalls_getD_fst_succ iters 0 k hi, applierCalls_getD_snd iters 0 (k + 1) hi]
      have hlt : iters.getD k 0 < iters.getD (k + 1) 0 := by
        have := List.chain'_iff_get.mp hchain k (by omega)
        rwa [List.getD_eq_getElem _ _ (by omega : k < iters.length),
          List.getD_eq_getElem _ _ (by omega : k + 1 < iters.length)]
      omega
  · intro i hi d hd j hj
    rcases i with _ | k
    · rcases iters with _ | ⟨it, rest⟩
      · simp at hi
      · rw [applierCalls_getD_fst_zero _ 0 hi, applierCalls_getD_snd _ 0 0 hi]
        simp only [if_pos rfl]
        rw [pureRun_getD_zero applier it rest 0 init]
        exact appendPure_cell _ init dim docCount (hap _ _) hinit hdim d j hd hj
    · rw [applierCalls_getD_fst_succ iters 0 k hi, applierCalls_getD_snd iters 0 (k + 1) hi]
      simp only [Nat.succ_ne_zero, if_false, Nat.add_sub_cancel]
      rw [pureRun_getD_succ applier iters 0 init k hi]
      have hprev : MatShape ((pureRun applier iters 0 init).getD k []) dim docCount := by
        have hk : k < (pureRun applier iters 0 init).length := by
          rw [pureRun_length]; omega
        rw [List.getD_eq_getElem _ _ hk]
        exact pureRun_shape applier iters 0 init hinit _ (List.getElem_mem hk)
      exact appendPure_cell _ _ dim docCount (hap _ _) hprev hdim d j hd hj

/-- Witness for `checkpoint_pass_tiling` on checkpoints `[0, 2]` with a
2×2 matrix. -/
theorem checkpoint_pass_tiling_witness :
    ∃ snaps, runCheckpoints constApplier [0, 2] 0 [[0, 0], [0, 0]] = .ok snaps
      ∧ (applierCalls [0, 2] 0).length = ([0, 2] : List Nat).length
      ∧ snaps.length = ([0, 2] : List Nat).length
      ∧ (∀ i, i < ([0, 2] : List Nat).length →
          ((applierCalls [0, 2] 0).getD i (0, 0)).2 = ([0, 2] : List Nat).getD i 0 + 1)
      ∧ (0 < ([0, 2] : List Nat).length → ((applierCalls [0, 2] 0).getD 0 (0, 0)).1 = 0)
      ∧ (∀ i, i + 1 < ([0, 2] : List Nat).length →
          ((applierCalls [0, 2] 0).getD (i + 1) (0, 0)).1
            = ((applierCalls [0, 2] 0).getD i (0, 0)).2)
      ∧ (∀ i, i < ([0, 2] : List Nat).length →
          ((applierCalls [0, 2] 0).getD i (0, 0)).1
            < ((applierCalls [0, 2] 0).getD i (0, 0)).2)
      ∧ (∀ i, i < ([0, 2] : List Nat).length → ∀ d, d < 2 → ∀ j, j < 2 →
          ((snaps.getD i []).getD d []).getD j 0
            = ((if i = 0 then ([[0, 0], [0, 0]] : Mat) else snaps.getD (i - 1) []).getD d []).getD j 0
              + ((constApplier ((applierCalls [0, 2] 0).getD i (0, 0)).1
                    ((applierCalls [0, 2] 0).getD i (0, 0)).2).getD d []).getD j 0) :=
  checkpoint_pass_tiling constApplier [0, 2] [[0, 0], [0, 0]] 2 2 (by decide)
    (fun _ _ => ⟨rfl, by
      intro row hrow
      simp only [constApplier, List.mem_cons, List.not_mem_nil, or_false] at hrow
      rcases hrow with rfl | rfl <;> rfl⟩)
    ⟨rfl, by
      intro row hrow
      simp only [List.mem_cons, List.not_mem_nil, or_false] at hrow
      rcases hrow with rfl | rfl <;> rfl⟩
    (by norm_num [List.chain'_cons])

theorem appendPure_empty_rows (dim : Nat) :
    appendPure (List.replicate dim []) (List.replicate dim []) 0
      = List.replicate dim [] := by
  unfold appendPure
  have hget : ∀ d : Nat, (List.replicate dim ([] : List ℚ)).getD d [] = [] := by
    intro d
    rcases Nat.lt_or_ge d dim with hd | hd
    · rw [List.getD_eq_getElem _ _ (by simpa using hd)]
      simp
    · exact List.getD_eq_default _ _ (by simpa using hd)
  have hbody : ∀ d : Nat,
      (if d < (List.replicate dim ([] : List ℚ)).length then
        addIntoRow ((List.replicate dim ([] : List ℚ)).getD d [])
          ((List.replicate dim ([] : List ℚ)).getD d []) 0
          ((List.replicate dim ([] : List ℚ)).getD 0 []).length
      else (List.replicate dim ([] : List ℚ)).getD d []) = [] := by
    intro d
    split
    · rw [hget d, hget 0]
      rfl
    · exact hget d
  calc (List.range (List.replicate dim ([] : List ℚ)).length).map _
      = (List.range (List.replicate dim ([] : List ℚ)).length).map
          (fun _ => ([] : List ℚ)) :=
        List.map_congr_left fun d _ => hbody d
    _ = List.replicate dim [] := by
        rw [List.map_const', List.length_range, List.length_replicate]

/-- C9: advancing over an empty dataset chunk yields prediction
matrices whose every output-dimension row has zero columns, at buffer
initialization and after every checkpoint; a zero-row delta matrix makes
`Append` fail with the (spec-modelled) zero-output-dimension error
instead of indexing row 0 of an empty matrix. -/
theorem empty_chunk_and_zero_dimension (dim : Nat) (hdim : 0 < dim)
    (applier : Nat → Nat → Mat) (iters : List Nat)
    (hap : ∀ b e, applier b e = List.replicate dim []) :
    initApproxBuffer dim [⟨0, []⟩] true = .ok (List.replicate dim [])
    ∧ (∃ snaps, runCheckpoints applier iters 0 (List.replicate dim []) = .ok snaps
        ∧ snaps.length = iters.length
        ∧ ∀ m ∈ snaps, m = List.replicate dim [])
    ∧ (∀ dst s, appendApprox [] dst s = .error "zero output dimension") := by
  refine ⟨?_, ?_, fun dst s => rfl⟩
  · have hval : initApproxBuffer dim [⟨0, []⟩] true
        = .ok ((List.range dim).map fun _ => ([] : List ℚ)) := rfl
    rw [hval, List.map_const', List.length_range]
  · have hapne : ∀ b e, (applier b e).isEmpty = false := by
      intro b e
      rw [hap b e]
      rcases dim with _ | d
      · omega
      · rfl
    have hkeep : ∀ (l : List Nat) (tb : Nat),
        ∀ m ∈ pureRun applier l tb (List.replicate dim []),
          m = List.replicate dim [] := by
      intro l
      induction l with
      | nil => intro tb m hm; cases hm
      | cons it rest ih =>
        intro tb m hm
        rw [pureRun, hap, appendPure_empty_rows] at hm
        rcases List.mem_cons.mp hm with rfl | hm
        · rfl
        · exact ih (it + 1) m hm
    exact ⟨pureRun applier iters 0 (List.replicate dim []),
      runCheckpoints_eq_pureRun applier hapne iters 0 _,
      pureRun_length applier iters 0 _, hkeep iters 0⟩

/-- Witness for `empty_chunk_and_zero_dimension` at one output dimension
and checkpoints `[0, 1]`. -/
theorem empty_chunk_and_zero_dimension_witness :
    initApproxBuffer 1 [⟨0, []⟩] true = .ok [[]]
    ∧ (∃ snaps, runCheckpoints (fun _ _ => [[]]) [0, 1] 0 [[]] = .ok snaps
        ∧ snaps.length = ([0, 1] : List Nat).length
        ∧ ∀ m ∈ snaps, m = [[]])
    ∧ (∀ dst s, appendApprox [] dst s = .error "zero output dimension") :=
  empty_chunk_and_zero_dimension 1 (by decide) (fun _ _ => [[]]) [0, 1]
    (fun _ _ => rfl)

theorem getD_set {α : Type} (l : List α) (i j : Nat) (a dflt : α) :
    (l.set i a).getD j dflt = if i = j ∧ j < l.length then a else l.getD j dflt := by
  rcases Nat.lt_or_ge j l.length with hj | hj
  · rw [List.getD_eq_getElem _ _ (by simpa using hj), List.getD_eq_getElem _ _ hj]
    rw [List.getElem_set]
    rcases eq_or_ne i j with rfl | hij
    · rw [if_pos rfl, if_pos ⟨rfl, hj⟩]
    · rw [if_neg hij, if_neg (by tauto)]
  · rw [List.getD_eq_default _ _ (by simpa using hj), List.getD_eq_default _ _ hj,
      if_neg (by omega)]

theorem setCell_length (m : Mat) (r c : Nat) (v : ℚ) :
    (setCell m r c v).length = m.length := by
  simp [setCell]

theorem setCell_row_length (m : Mat) (r c : Nat) (v : ℚ) (r' : Nat) :
    ((setCell m r c v).getD r' []).length = (m.getD r' []).length := by
  unfold setCell
  rw [getD_set]
  split
  · rcases this : ‹r = r' ∧ r' < m.length› with ⟨rfl, _⟩
    simp
  · rfl

theorem getCell_setCell_same (m : Mat) (r c : Nat) (v : ℚ)
    (hr : r < m.length) (hc : c < (m.getD r []).length) :
    getCell (setCell m r c v) r c = v := by
  unfold getCell setCell
  rw [getD_set, if_pos ⟨rfl, hr⟩, getD_set, if_pos ⟨rfl, hc⟩]

theorem getCell_setCell_other (m : Mat) (r c : Nat) (v : ℚ) (r' c' : Nat)
    (h : r ≠ r' ∨ c ≠ c') :
    getCell (setCell m r c v) r' c' = getCell m r' c' := by
  unfold getCell setCell
  rw [getD_set]
  rcases eq_or_ne r r' with rfl | hrr
  · split
    · rw [getD_set, if_neg (by tauto)]
    · rfl
  · rw [if_neg (by tauto)]

theorem setCell_shape {m : Mat} {n cols : Nat} (h : MatShape m n cols)
    (r c : Nat) (v : ℚ) : MatShape (setCell m r c v) n cols := by
  refine ⟨by rw [setCell_length]; exact h.1, ?_⟩
  rcases Nat.lt_or_ge r m.length with hr | hr
  · intro row hrow
    rcases List.mem_or_eq_of_mem_set hrow with hmem | rfl
    · exact h.2 row hmem
    · rw [List.length_set, List.getD_eq_getElem _ _ hr]
      exact h.2 _ (List.getElem_mem hr)
  · intro row hrow
    unfold setCell at hrow
    rw [List.set_eq_of_length_le hr] at hrow
    exact h.2 row hrow

theorem scatterCol_shape (rowOf : Nat → Nat) (i : Nat) (valOf : Nat → ℚ) :
    ∀ (mids : List Nat) {m : Mat} {n cols : Nat}, MatShape m n cols →
      MatShape (scatterCol rowOf i valOf mids m) n cols := by
  intro mids
  induction mids with
  | nil => intro m n cols h; exact h
  | cons mid rest ih =>
    intro m n cols h
    exact ih (setCell_shape h (rowOf mid) i (valOf mid))

theorem scatterCol_cons (rowOf : Nat → Nat) (i : Nat) (valOf : Nat → ℚ)
    (mid : Nat) (rest : List Nat) (m : Mat) :
    scatterCol rowOf i valOf (mid :: rest) m
      = scatterCol rowOf i valOf rest (setCell m (rowOf mid) i (valOf mid)) := rfl

theorem getCell_scatterCol_other_col (rowOf : Nat → Nat) (i : Nat) (valOf : Nat → ℚ) :
    ∀ (mids : List Nat) (m : Mat) (r' c' : Nat), c' ≠ i →
      getCell (scatterCol rowOf i valOf mids m) r' c' = getCell m r' c' := by
  intro mids
  induction mids with
  | nil => intro m r' c' _; rfl
  | cons mid rest ih =>
    intro m r' c' hc
    rw [scatterCol_cons, ih _ r' c' hc,
      getCell_setCell_other _ _ _ _ _ _ (Or.inr hc.symm)]

theorem getCell_scatterCol_other_row (rowOf : Nat → Nat) (i : Nat) (valOf : Nat → ℚ) :
    ∀ (mids : List Nat) (m : Mat) (r' c' : Nat), (∀ mid ∈ mids, rowOf mid ≠ r') →
      getCell (scatterCol rowOf i valOf mids m) r' c' = getCell m r' c' := by
  intro mids
  induction mids with
  | nil => intro m r' c' _; rfl
  | cons mid rest ih =>
    intro m r' c' hrow
    rw [scatterCol_cons, ih _ r' c' (fun x hx => hrow x (List.mem_cons_of_mem _ hx)),
      getCell_setCell_other _ _ _ _ _ _ (Or.inl (hrow mid (List.mem_cons_self _ _)))]

theorem getCell_scatterCol_hit (rowOf : Nat → Nat) (i : Nat) (valOf : Nat → ℚ) :
    ∀ (mids : List Nat) (m : Mat) (mid : Nat), (mids.map rowOf).Nodup → mid ∈ mids →
      rowOf mid < m.length → i < (m.getD (rowOf mid) []).length →
      getCell (scatterCol rowOf i valOf mids m) (rowOf mid) i = valOf mid := by
  intro mids
  induction mids with
  | nil => intro m mid _ hmem; cases hmem
  | cons mid0 rest ih =>
    intro m mid hnodup hmem hr hc
    have hnodup' : rowOf mid0 ∉ rest.map rowOf ∧ (rest.map rowOf).Nodup := by
      rw [List.map_cons, List.nodup_cons] at hnodup
      exact hnodup
    rw [scatterCol_cons]
    rcases List.mem_cons.mp hmem with rfl | hmem
    · rw [getCell_scatterCol_other_row rowOf i valOf rest _ _ _ ?_]
      · exact getCell_setCell_same m _ i _ hr hc
      · intro x hx hcontra
        exact hnodup'.1 (hcontra ▸ List.mem_map_of_mem rowOf hx)
    · refine ih _ mid hnodup'.2 hmem ?_ ?_
      · rw [setCell_length]; exact hr
      · rw [setCell_row_length]; exact hc

theorem getCell_foldl_notmem (step : Nat → Mat → Mat)
    (hpres : ∀ j m r' c', c' ≠ j → getCell (step j m) r' c' = getCell m r' c') :
    ∀ (cols : List Nat) (m : Mat) (r c : Nat), (∀ j ∈ cols, c ≠ j) →
      getCell (cols.foldl (fun acc j => step j acc) m) r c = getCell m r c := by
  intro cols
  induction cols with
  | nil => intro m r c _; rfl
  | cons j rest ih =>
    intro m r c hc
    rw [List.foldl_cons, ih _ r c (fun x hx => hc x (List.mem_cons_of_mem _ hx)),
      hpres j m r c (hc j (List.mem_cons_self _ _))]

theorem getCell_foldl_hit (step : Nat → Mat → Mat) (P : Mat → Prop)
    (hpres : ∀ j m r' c', c' ≠ j → getCell (step j m) r' c' = getCell m r' c')
    (hP : ∀ j m, P m → P (step j m)) (r c : Nat) (v : ℚ)
    (hval : ∀ m, P m → getCell (step c m) r c = v) :
    ∀ (cols : List Nat) (m : Mat), cols.Nodup → c ∈ cols → P m →
      getCell (cols.foldl (fun acc j => step j acc) m) r c = v := by
  intro cols
  induction cols with
  | nil => intro m _ hmem; cases hmem
  | cons j rest ih =>
    intro m hnodup hmem hPm
    rw [List.foldl_cons]
    rcases List.mem_cons.mp hmem with rfl | hmem
    · rw [getCell_foldl_notmem step hpres rest _ r c ?_]
      · exact hval m hPm
      · intro x hx hcontra
        exact (List.nodup_cons.mp hnodup).1 (hcontra ▸ hx)
    · exact ih _ (List.nodup_cons.mp hnodup).2 hmem (hP j m hPm)

theorem foldl_step_shape {σ : Type} (step : Nat → σ → σ) (P : σ → Prop)
    (hP : ∀ j m, P m → P (step j m)) :
    ∀ (cols : List Nat) (m : σ), P m →
      P (cols.foldl (fun acc j => step j acc) m) := by
  intro cols
  induction cols with
  | nil => intro m h; exact h
  | cons j rest ih => intro m h; exact ih _ (hP j m h)

theorem map_getD_range_self {α : Type} (l : List α) (d : α) :
    (List.range l.length).map (fun k => l.getD k d) = l := by
  apply List.ext_getElem
  · simp
  intro k hk1 hk2
  simp only [List.getElem_map, List.getElem_range]
  exact List.getD_eq_getElem _ _ hk2

theorem enumFrom_filter_map_snd {A : Type} (p : Metric A → Bool) (ms : List (Metric A)) :
    ∀ k, (((ms.enumFrom k).filter fun q => p q.2).map (·.2)) = ms.filter p := by
  induction ms with
  | nil => intro k; rfl
  | cons m rest ih =>
    intro k
    rw [List.enumFrom_cons, List.filter_cons, List.filter_cons]
    rcases h : p m with _ | _
    · simp only [h, Bool.false_eq_true, if_false]
      exact ih (k + 1)
    · simp only [h, if_true, List.map_cons]
      rw [ih (k + 1)]

theorem enum_filter_map_snd {A : Type} (p : Metric A → Bool) (ms : List (Metric A)) :
    ((ms.enum.filter fun q => p q.2).map (·.2)) = ms.filter p :=
  enumFrom_filter_map_snd p ms 0

theorem mem_enum_filter_spec {A : Type} (p : Metric A → Bool) (ms : List (Metric A)) :
    ∀ q ∈ ms.enum.filter (fun q => p q.2), ∃ h : q.1 < ms.length, ms[q.1] = q.2 := by
  intro q hq
  have hq' := (List.mem_filter.mp hq).1
  have := List.mem_enum_iff_getElem?.mp hq'
  exact ⟨(List.getElem?_eq_some_iff.mp this).1, (List.getElem?_eq_some_iff.mp this).2⟩

theorem nodup_enum_filter_fst {A : Type} (p : Metric A → Bool) (ms : List (Metric A)) :
    (((ms.enum.filter fun q => p q.2).map (·.1))).Nodup := by
  have hsub : ((ms.enum.filter fun q => p q.2).map (·.1)).Sublist (ms.enum.map (·.1)) :=
    (List.filter_sublist _).map _
  exact hsub.nodup (by
    have := List.nodup_enum_map_fst ms
    simpa using this)

theorem length_filter_partition {A : Type} (p : Metric A → Bool) (ms : List (Metric A)) :
    (ms.filter p).length + (ms.filter fun m => !p m).length = ms.length := by
  induction ms with
  | nil => rfl
  | cons m rest ih =>
    rw [List.filter_cons, List.filter_cons]
    rcases h : p m with _ | _ <;> simp only [h, Bool.not_false, Bool.not_true,
      Bool.false_eq_true, if_false, if_true, List.length_cons] <;> omega

theorem enum_filter_pairing {A : Type} [Inhabited A] (p : Metric A → Bool)
    (ms : List (Metric A)) (mid : Nat)
    (hmid : mid < ((ms.enum.filter fun q => p q.2).map (·.1)).length) :
    ms.getD (((ms.enum.filter fun q => p q.2).map (·.1)).getD mid 0) default
      = (ms.filter p).getD mid default := by
  have hmid' : mid < (ms.enum.filter fun q => p q.2).length := by simpa using hmid
  rw [List.getD_eq_getElem _ _ hmid, List.getElem_map]
  obtain ⟨hlt, heq⟩ := mem_enum_filter_spec p ms _ (List.getElem_mem hmid')
  rw [List.getD_eq_getElem _ _ hlt, heq]
  rw [← enum_filter_map_snd p ms,
    List.getD_eq_getElem _ _ (by simpa using hmid'), List.getElem_map]

theorem classifyMetrics_ok {A : Type} (ms : List (Metric A))
    (hgood : ∀ m ∈ ms, m.isAdditive = false → m.errorType = EErrorType.PerObjectError) :
    classifyMetrics ms = .ok
      ⟨ms.filter (fun m => m.isAdditive),
       (ms.enum.filter fun q => q.2.isAdditive).map (·.1),
       ms.filter (fun m => !m.isAdditive),
       (ms.enum.filter fun q => !q.2.isAdditive).map (·.1)⟩ :=
  classifyGo_ok ms 0 hgood

/-- The shape invariant of the score matrix holds for the initial zero
matrix and is preserved by every column step of `getMetricsScore`. -/
theorem getMetricsScore_shape {A : Type} [Inhabited A] (cl : Classified A)
    (numIters : Nat) (aPlots naPlots : List (List A)) :
    MatShape (getMetricsScore cl numIters aPlots naPlots)
      (cl.additiveMetrics.length + cl.nonAdditiveMetrics.length) numIters := by
  unfold getMetricsScore
  apply foldl_step_shape _
    (fun m => MatShape m (cl.additiveMetrics.length + cl.nonAdditiveMetrics.length) numIters)
  · intro j m hm
    exact scatterCol_shape _ _ _ _ (scatterCol_shape _ _ _ _ hm)
  · constructor
    · simp
    · intro row hrow
      rw [List.eq_of_mem_replicate hrow]
      simp

/-- Structural facts about a successful classification, bundled for the
score-matrix lemmas: group sizes, no duplicate slots, slot membership,
and the pairing of each group member with its original metric. -/
theorem classified_facts {A : Type} [Inhabited A] (ms : List (Metric A))
    (cl : Classified A) (hcl : classifyMetrics ms = .ok cl) :
    cl.additiveIndices.length = cl.additiveMetrics.length
    ∧ cl.nonAdditiveIndices.length = cl.nonAdditiveMetrics.length
    ∧ cl.additiveMetrics.length + cl.nonAdditiveMetrics.length = ms.length
    ∧ cl.additiveIndices.Nodup
    ∧ cl.nonAdditiveIndices.Nodup
    ∧ (∀ r, r ∈ cl.additiveIndices ↔
        ∃ h : r < ms.length, (ms.get ⟨r, h⟩).isAdditive = true)
    ∧ (∀ r, r ∈ cl.nonAdditiveIndices ↔
        ∃ h : r < ms.length, (ms.get ⟨r, h⟩).isAdditive = false)
    ∧ (∀ mid, mid < cl.additiveMetrics.length →
        ms.getD (cl.additiveIndices.getD mid 0) default
          = cl.additiveMetrics.getD mid default)
    ∧ (∀ mid, mid < cl.nonAdditiveMetrics.length →
        ms.getD (cl.nonAdditiveIndices.getD mid 0) default
          = cl.nonAdditiveMetrics.getD mid default) := by
  have hgood : ∀ m ∈ ms, m.isAdditive = false → m.errorType = EErrorType.PerObjectError := by
    by_contra hbad
    push_neg at hbad
    obtain ⟨m, hm, hadd, het⟩ := hbad
    obtain ⟨e, he⟩ := classifyGo_error ms 0 ⟨m, hm, hadd, het⟩
    rw [classifyMetrics, he] at hcl
    cases hcl
  rw [classifyMetrics_ok ms hgood] at hcl
  injection hcl with hclEq
  have hAM : cl.additiveMetrics = ms.filter (fun m => m.isAdditive) := by rw [← hclEq]
  have hAI : cl.additiveIndices = (ms.enum.filter fun q => q.2.isAdditive).map (·.1) := by
    rw [← hclEq]
  have hNAM : cl.nonAdditiveMetrics = ms.filter (fun m => !m.isAdditive) := by rw [← hclEq]
  have hNAI : cl.nonAdditiveIndices
      = (ms.enum.filter fun q => !q.2.isAdditive).map (·.1) := by
    rw [← hclEq]
  have hALen : cl.additiveIndices.length = cl.additiveMetrics.length := by
    rw [hAI, hAM, ← enum_filter_map_snd (fun m => m.isAdditive) ms]
    simp
  have hNALen : cl.nonAdditiveIndices.length = cl.nonAdditiveMetrics.length := by
    rw [hNAI, hNAM, ← enum_filter_map_snd (fun m => !m.isAdditive) ms]
    simp
  refine ⟨hALen, hNALen, ?_, ?_, ?_, ?_, ?_, ?_, ?_⟩
  · rw [hAM, hNAM]
    exact length_filter_partition (fun m => m.isAdditive) ms
  · rw [hAI]
    exact nodup_enum_filter_fst (fun m => m.isAdditive) ms
  · rw [hNAI]
    exact nodup_enum_filter_fst (fun m => !m.isAdditive) ms
  · intro r
    rw [hAI]
    exact mem_enumFilterIdx (fun m => m.isAdditive) ms r
  · intro r
    rw [hNAI]
    simpa using mem_enumFilterIdx (fun m => !m.isAdditive) ms r
  · intro mid hmid
    rw [hAI, hAM]
    exact enum_filter_pairing (fun m => m.isAdditive) ms mid (by
      rw [← hAI]
      omega)
  · intro mid hmid
    rw [hNAI, hNAM]
    exact enum_filter_pairing (fun m => !m.isAdditive) ms mid (by
      rw [← hNAI]
      omega)

/-- The cell of the score matrix at an additive metric's original slot
holds that metric's finalized accumulator. -/
theorem getMetricsScore_cell_additive {A : Type} [Inhabited A] (ms : List (Metric A))
    (cl : Classified A) (numIters : Nat) (aPlots naPlots : List (List A))
    (hcl : classifyMetrics ms = .ok cl) (mid i : Nat)
    (hmid : mid < cl.additiveMetrics.length) (hi : i < numIters) :
    getCell (getMetricsScore cl numIters aPlots naPlots)
        (cl.additiveIndices.getD mid 0) i
      = (cl.additiveMetrics.getD mid default).finalError
          ((aPlots.getD mid []).getD i default) := by
  obtain ⟨hALen, hNALen, htot, hAnodup, hNAnodup, hmemA, hmemNA, _, _⟩ :=
    classified_facts ms cl hcl
  have hdisj : ∀ r, r ∈ cl.additiveIndices → r ∈ cl.nonAdditiveIndices → False := by
    intro r hra hrna
    obtain ⟨h1, he1⟩ := (hmemA r).mp hra
    obtain ⟨h2, he2⟩ := (hmemNA r).mp hrna
    rw [he1] at he2
    cases he2
  have hAmap : (List.range cl.additiveMetrics.length).map
      (fun mid => cl.additiveIndices.getD mid 0) = cl.additiveIndices := by
    rw [← hALen]
    exact map_getD_range_self _ 0
  have hAr : cl.additiveIndices.getD mid 0 ∈ cl.additiveIndices := by
    rw [List.getD_eq_getElem _ _ (by omega : mid < cl.additiveIndices.length)]
    exact List.getElem_mem _
  have hNAr : ∀ mid', mid' < cl.nonAdditiveMetrics.length →
      cl.nonAdditiveIndices.getD mid' 0 ∈ cl.nonAdditiveIndices := by
    intro mid' hmid'
    rw [List.getD_eq_getElem _ _ (by omega : mid' < cl.nonAdditiveIndices.length)]
    exact List.getElem_mem _
  have hAbound : cl.additiveIndices.getD mid 0 < ms.length := ((hmemA _).mp hAr).choose
  unfold getMetricsScore
  apply getCell_foldl_hit _
    (fun m => MatShape m (cl.additiveMetrics.length + cl.nonAdditiveMetrics.length) numIters)
  · intro j m r' c' hc
    rw [getCell_scatterCol_other_col _ _ _ _ _ _ _ hc,
      getCell_scatterCol_other_col _ _ _ _ _ _ _ hc]
  · intro j m hm
    exact scatterCol_shape _ _ _ _ (scatterCol_shape _ _ _ _ hm)
  · intro m hm
    rw [getCell_scatterCol_other_row _ _ _ _ _ _ _ ?_]
    · refine getCell_scatterCol_hit _ _ _ _ _ mid ?_ (List.mem_range.mpr hmid) ?_ ?_
      · rw [hAmap]
        exact hAnodup
      · rw [hm.1]
        omega
      · rw [MatShape.row_getD hm (by omega)]
        exact hi
    · intro mid' hmid' hcontra
      apply hdisj (cl.additiveIndices.getD mid 0) hAr
      rw [← hcontra]
      exact hNAr mid' (by
        have := List.mem_range.mp hmid'
        omega)
  · exact List.nodup_range numIters
  · exact List.mem_range.mpr hi
  · constructor
    · simp
    · intro row hrow
      rw [List.eq_of_mem_replicate hrow]
      simp

/-- The cell of the score matrix at a non-additive metric's original
slot holds that metric's finalized accumulator. -/
theorem getMetricsScore_cell_nonAdditive {A : Type} [Inhabited A] (ms : List (Metric A))
    (cl : Classified A) (numIters : Nat) (aPlots naPlots : List (List A))
    (hcl : classifyMetrics ms = .ok cl) (mid i : Nat)
    (hmid : mid < cl.nonAdditiveMetrics.length) (hi : i < numIters) :
    getCell (getMetricsScore cl numIters aPlots naPlots)
        (cl.nonAdditiveIndices.getD mid 0) i
      = (cl.nonAdditiveMetrics.getD mid default).finalError
          ((naPlots.getD mid []).getD i default) := by
  obtain ⟨hALen, hNALen, htot, hAnodup, hNAnodup, hmemA, hmemNA, _, _⟩ :=
    classified_facts ms cl hcl
  have hNAmap : (List.range cl.nonAdditiveMetrics.length).map
      (fun mid => cl.nonAdditiveIndices.getD mid 0) = cl.nonAdditiveIndices := by
    rw [← hNALen]
    exact map_getD_range_self _ 0
  have hNAr : cl.nonAdditiveIndices.getD mid 0 ∈ cl.nonAdditiveIndices := by
    rw [List.getD_eq_getElem _ _ (by omega : mid < cl.nonAdditiveIndices.length)]
    exact List.getElem_mem _
  have hNAbound : cl.nonAdditiveIndices.getD mid 0 < ms.length := ((hmemNA _).mp hNAr).choose
  unfold getMetricsScore
  apply getCell_foldl_hit _
    (fun m => MatShape m (cl.additiveMetrics.length + cl.nonAdditiveMetrics.length) numIters)
  · intro j m r' c' hc
    rw [getCell_scatterCol_other_col _ _ _ _ _ _ _ hc,
      getCell_scatterCol_other_col _ _ _ _ _ _ _ hc]
  · intro j m hm
    exact scatterCol_shape _ _ _ _ (scatterCol_shape _ _ _ _ hm)
  · intro m hm
    have hm' := scatterCol_shape (fun mid => cl.additiveIndices.getD mid 0) i
      (fun mid => (cl.additiveMetrics.getD mid default).finalError
        ((aPlots.getD mid []).getD i default))
      (List.range cl.additiveMetrics.length) hm
    refine getCell_scatterCol_hit _ _ _ _ _ mid ?_ (List.mem_range.mpr hmid) ?_ ?_
    · rw [hNAmap]
      exact hNAnodup
    · rw [hm'.1]
      omega
    · rw [MatShape.row_getD hm' (by omega)]
      exact hi
  · exact List.nodup_range numIters
  · exact List.mem_range.mpr hi
  · constructor
    · simp
    · intro row hrow
      rw [List.eq_of_mem_replicate hrow]
      simp

/-- C7: the score matrix has one row per supplied metric and one
column per checkpoint; every original slot lies in exactly one group's
index list; and for each group-local metric id, the row at the metric's
original slot index holds, in every checkpoint column, the finalization
(by that very metric) of that metric's accumulator for that checkpoint. -/
theorem score_matrix_slots {A : Type} [Inhabited A] (ms : List (Metric A))
    (cl : Classified A) (numIters : Nat) (aPlots naPlots : List (List A))
    (hcl : classifyMetrics ms = .ok cl) :
    (getMetricsScore cl numIters aPlots naPlots).length = ms.length
    ∧ (∀ row ∈ getMetricsScore cl numIters aPlots naPlots, row.length = numIters)
    ∧ (∀ r, r < ms.length → r ∈ cl.additiveIndices ∨ r ∈ cl.nonAdditiveIndices)
    ∧ (∀ mid, mid < cl.additiveMetrics.length → ∀ i, i < numIters →
        ms.getD (cl.additiveIndices.getD mid 0) default
            = cl.additiveMetrics.getD mid default
        ∧ getCell (getMetricsScore cl numIters aPlots naPlots)
              (cl.additiveIndices.getD mid 0) i
            = (ms.getD (cl.additiveIndices.getD mid 0) default).finalError
                ((aPlots.getD mid []).getD i default))
    ∧ (∀ mid, mid < cl.nonAdditiveMetrics.length → ∀ i, i < numIters →
        ms.getD (cl.nonAdditiveIndices.getD mid 0) default
            = cl.nonAdditiveMetrics.getD mid default
        ∧ getCell (getMetricsScore cl numIters aPlots naPlots)
              (cl.nonAdditiveIndices.getD mid 0) i
            = (ms.getD (cl.nonAdditiveIndices.getD mid 0) default).finalError
                ((naPlots.getD mid []).getD i default)) := by
  obtain ⟨hALen, hNALen, htot, hAnodup, hNAnodup, hmemA, hmemNA, hpairA, hpairNA⟩ :=
    classified_facts ms cl hcl
  have hshape := getMetricsScore_shape cl numIters aPlots naPlots
  refine ⟨by rw [hshape.1, htot], fun row hrow => hshape.2 row hrow, ?_, ?_, ?_⟩
  · intro r hr
    rcases hadd : (ms.get ⟨r, hr⟩).isAdditive with _ | _
    · exact Or.inr ((hmemNA r).mpr ⟨hr, hadd⟩)
    · exact Or.inl ((hmemA r).mpr ⟨hr, hadd⟩)
  · intro mid hmid i hi
    refine ⟨hpairA mid hmid, ?_⟩
    rw [hpairA mid hmid]
    exact getMetricsScore_cell_additive ms cl numIters aPlots naPlots hcl mid i hmid hi
  · intro mid hmid i hi
    refine ⟨hpairNA mid hmid, ?_⟩
    rw [hpairNA mid hmid]
    exact getMetricsScore_cell_nonAdditive ms cl numIters aPlots naPlots hcl mid i hmid hi

/-- Witness for `score_matrix_slots` with one additive and one
non-additive metric, identity finalization, a single checkpoint. -/
theorem score_matrix_slots_witness :
    (getMetricsScore (⟨[⟨true, EErrorType.PerObjectError, id⟩], [0],
        [⟨false, EErrorType.PerObjectError, id⟩], [1]⟩ : Classified ℚ)
        1 [[3]] [[4]]).length = 2
    ∧ getCell (getMetricsScore (⟨[⟨true, EErrorType.PerObjectError, id⟩], [0],
        [⟨false, EErrorType.PerObjectError, id⟩], [1]⟩ : Classified ℚ)
        1 [[3]] [[4]]) 0 0 = 3
    ∧ getCell (getMetricsScore (⟨[⟨true, EErrorType.PerObjectError, id⟩], [0],
        [⟨false, EErrorType.PerObjectError, id⟩], [1]⟩ : Classified ℚ)
        1 [[3]] [[4]]) 1 0 = 4 := by
  have h := score_matrix_slots
    [⟨true, EErrorType.PerObjectError, id⟩, ⟨false, EErrorType.PerObjectError, id⟩]
    (⟨[⟨true, EErrorType.PerObjectError, id⟩], [0],
      [⟨false, EErrorType.PerObjectError, id⟩], [1]⟩ : Classified ℚ)
    1 [[3]] [[4]] rfl
  exact ⟨h.1, (h.2.2.2.1 0 (by decide) 0 (by decide)).2,
    (h.2.2.2.2 0 (by decide) 0 (by decide)).2⟩

theorem updatePlotCell_shape {A : Type} [Inhabited A] {plots : List (List A)}
    {n cols : Nat} (h : PlotShape plots n cols) (mid col : Nat) (v : A) :
    PlotShape (updatePlotCell plots mid col v) n cols := by
  refine ⟨by simp [updatePlotCell]; exact h.1, ?_⟩
  rcases Nat.lt_or_ge mid plots.length with hmid | hmid
  · intro row hrow
    rcases List.mem_or_eq_of_mem_set hrow with hmem | rfl
    · exact h.2 row hmem
    · rw [List.length_set, List.getD_eq_getElem _ _ hmid]
      exact h.2 _ (List.getElem_mem hmid)
  · intro row hrow
    unfold updatePlotCell at hrow
    rw [List.set_eq_of_length_le hmid] at hrow
    exact h.2 row hrow

theorem computeAdditiveMetricOp_shape {A : Type} [Inhabited A] (merge : A → A → A)
    (results : Nat → A) (nMetrics plotLineIndex : Nat) {plots : List (List A)}
    {n cols : Nat} (h : PlotShape plots n cols) :
    PlotShape (computeAdditiveMetricOp merge results nMetrics plotLineIndex plots)
      n cols := by
  unfold computeAdditiveMetricOp
  refine foldl_step_shape
    (fun mid ps => updatePlotCell ps mid plotLineIndex
      (merge ((ps.getD mid []).getD plotLineIndex default) (results mid)))
    (fun ps => PlotShape ps n cols) ?_ _ plots h
  intro j m hm
  exact updatePlotCell_shape hm _ _ _

theorem computeNonAdditiveMetricsOp_shape {A : Type} [Inhabited A]
    (results : Nat → Nat → A) (nMetrics b e : Nat) {plots : List (List A)}
    {n cols : Nat} (h : PlotShape plots n cols) :
    PlotShape (computeNonAdditiveMetricsOp results nMetrics b e plots) n cols := by
  unfold computeNonAdditiveMetricsOp
  refine foldl_step_shape
    (fun idx ps => (List.range nMetrics).foldl (fun ps mid =>
      updatePlotCell ps mid idx (results mid idx)) ps)
    (fun ps => PlotShape ps n cols) ?_ _ plots h
  intro idx m hm
  refine foldl_step_shape
    (fun mid ps => updatePlotCell ps mid idx (results mid idx))
    (fun ps => PlotShape ps n cols) ?_ _ m hm
  intro j m' hm'
  exact updatePlotCell_shape hm' _ _ _

/-- C10: construction establishes the shape invariant — one plot row
per group metric, one accumulator cell per checkpoint, all cells the
default-constructed accumulator; both plot-writing operations preserve
the invariant for any state; `getMetricsScore` is total and returns a
`[metric count][checkpoint count]` matrix for every state, in particular
for the freshly constructed one, whose cells are then the finalization
of the empty accumulator. -/
theorem calcer_shape_invariant {A : Type} [Inhabited A] (emptyAcc : A)
    (ms : List (Metric A)) (first last step : Nat) (st : PlotCalcer A)
    (hmk : mkPlotCalcer emptyAcc ms first last step = .ok st) :
    ShapeOK st
    ∧ (∀ row ∈ st.additivePlots, ∀ a ∈ row, a = emptyAcc)
    ∧ (∀ row ∈ st.nonAdditivePlots, ∀ a ∈ row, a = emptyAcc)
    ∧ (∀ (st' : PlotCalcer A) (merge : A → A → A) (results : Nat → A) (idx : Nat),
        ShapeOK st' → ShapeOK (st'.computeAdditiveMetric merge results idx))
    ∧ (∀ (st' : PlotCalcer A) (results : Nat → Nat → A) (b e : Nat),
        ShapeOK st' → ShapeOK (st'.computeNonAdditiveMetrics results b e))
    ∧ (∀ st' : PlotCalcer A,
        (PlotCalcer.getMetricsScore st').length
          = st'.classified.additiveMetrics.length
            + st'.classified.nonAdditiveMetrics.length
        ∧ ∀ row ∈ PlotCalcer.getMetricsScore st', row.length = st'.iterations.length)
    ∧ (PlotCalcer.getMetricsScore st).length = ms.length
    ∧ (∀ mid, mid < st.classified.additiveMetrics.length →
        ∀ i, i < st.iterations.length →
        getCell (PlotCalcer.getMetricsScore st)
            (st.classified.additiveIndices.getD mid 0) i
          = (st.classified.additiveMetrics.getD mid default).finalError emptyAcc)
    ∧ (∀ mid, mid < st.classified.nonAdditiveMetrics.length →
        ∀ i, i < st.iterations.length →
        getCell (PlotCalcer.getMetricsScore st)
            (st.classified.nonAdditiveIndices.getD mid 0) i
          = (st.classified.nonAdditiveMetrics.getD mid default).finalError emptyAcc) := by
  rcases hcls : classifyMetrics ms with e | cl
  · rw [mkPlotCalcer, hcls] at hmk
    cases hmk
  rw [mkPlotCalcer, hcls] at hmk
  injection hmk with hstEq
  have hIter : st.iterations = buildIterations first last step := by rw [← hstEq]
  have hCl : st.classified = cl := by rw [← hstEq]
  have hAP : st.additivePlots = List.replicate cl.additiveMetrics.length
      (List.replicate (buildIterations first last step).length emptyAcc) := by
    rw [← hstEq]
  have hNAP : st.nonAdditivePlots = List.replicate cl.nonAdditiveMetrics.length
      (List.replicate (buildIterations first last step).length emptyAcc) := by
    rw [← hstEq]
  have hclSt : classifyMetrics ms = .ok st.classified := by rw [hCl]; exact hcls
  have hreplShape : ∀ (k : Nat),
      PlotShape (List.replicate k
        (List.replicate (buildIterations first last step).length emptyAcc))
        k (buildIterations first last step).length := by
    intro k
    refine ⟨by simp, ?_⟩
    intro row hrow
    rw [List.eq_of_mem_replicate hrow]
    simp
  have hfresh : ∀ (k : Nat), ∀ row ∈ (List.replicate k
      (List.replicate (buildIterations first last step).length emptyAcc)),
      ∀ a ∈ row, a = emptyAcc := by
    intro k row hrow a ha
    rw [List.eq_of_mem_replicate hrow] at ha
    exact List.eq_of_mem_replicate ha
  have hplotsGetD : ∀ (k mid i : Nat), mid < k →
      i < (buildIterations first last step).length →
      ((List.replicate k
          (List.replicate (buildIterations first last step).length emptyAcc)).getD
            mid []).getD i default = emptyAcc := by
    intro k mid i hmid hi
    have houter : (List.replicate k
        (List.replicate (buildIterations first last step).length emptyAcc)).getD mid []
        = List.replicate (buildIterations first last step).length emptyAcc := by
      rw [List.getD_eq_getElem _ _ (by simpa using hmid)]
      simp
    rw [houter, List.getD_eq_getElem _ _ (by simpa using hi)]
    simp
  refine ⟨?_, ?_, ?_, ?_, ?_, ?_, ?_, ?_, ?_⟩
  · constructor
    · rw [hAP, hCl, hIter]
      exact hreplShape _
    · rw [hNAP, hCl, hIter]
      exact hreplShape _
  · rw [hAP]
    exact hfresh _
  · rw [hNAP]
    exact hfresh _
  · intro st' merge results idx h
    exact ⟨computeAdditiveMetricOp_shape merge results _ idx h.1, h.2⟩
  · intro st' results b e h
    exact ⟨h.1, computeNonAdditiveMetricsOp_shape results _ b e h.2⟩
  · intro st'
    have hsh := getMetricsScore_shape st'.classified st'.iterations.length
      st'.additivePlots st'.nonAdditivePlots
    exact ⟨hsh.1, hsh.2⟩
  · obtain ⟨_, _, htot, _⟩ := classified_facts ms st.classified hclSt
    have hsh := getMetricsScore_shape st.classified st.iterations.length
      st.additivePlots st.nonAdditivePlots
    rw [PlotCalcer.getMetricsScore, hsh.1, htot]
  · intro mid hmid i hi
    have hi' : i < (buildIterations first last step).length := by
      rw [← hIter]
      exact hi
    have hmid' : mid < cl.additiveMetrics.length := by
      rw [← hCl]
      exact hmid
    have hcell := getMetricsScore_cell_additive ms st.classified st.iterations.length
      st.additivePlots st.nonAdditivePlots hclSt mid i hmid hi
    rw [PlotCalcer.getMetricsScore, hcell, hAP, hplotsGetD _ mid i hmid' hi']
  · intro mid hmid i hi
    have hi' : i < (buildIterations first last step).length := by
      rw [← hIter]
      exact hi
    have hmid' : mid < cl.nonAdditiveMetrics.length := by
      rw [← hCl]
      exact hmid
    have hcell := getMetricsScore_cell_nonAdditive ms st.classified st.iterations.length
      st.additivePlots st.nonAdditivePlots hclSt mid i hmid hi
    rw [PlotCalcer.getMetricsScore, hcell, hNAP, hplotsGetD _ mid i hmid' hi']

/-- Witness for `calcer_shape_invariant` on `examplePlotCalcer`. -/
theorem calcer_shape_invariant_witness :
    mkPlotCalcer (0 : ℚ) [⟨true, EErrorType.PerObjectError, id⟩,
        ⟨false, EErrorType.PerObjectError, id⟩] 0 2 1 = .ok examplePlotCalcer
    ∧ (PlotCalcer.getMetricsScore examplePlotCalcer).length = 2
    ∧ getCell (PlotCalcer.getMetricsScore examplePlotCalcer) 1 0 = 0 := by
  have hb : buildIterations 0 2 1 = [0, 1] := by
    simp [buildIterations, collectIterations_eq]
  have hmk : mkPlotCalcer (0 : ℚ) [⟨true, EErrorType.PerObjectError, id⟩,
      ⟨false, EErrorType.PerObjectError, id⟩] 0 2 1 = .ok examplePlotCalcer := by
    have hstep : mkPlotCalcer (0 : ℚ) [⟨true, EErrorType.PerObjectError, id⟩,
        ⟨false, EErrorType.PerObjectError, id⟩] 0 2 1
        = .ok ⟨buildIterations 0 2 1,
            ⟨[⟨true, EErrorType.PerObjectError, id⟩], [0],
             [⟨false, EErrorType.PerObjectError, id⟩], [1]⟩,
            List.replicate 1 (List.replicate (buildIterations 0 2 1).length (0 : ℚ)),
            List.replicate 1 (List.replicate (buildIterations 0 2 1).length (0 : ℚ))⟩ :=
      rfl
    rw [hstep, hb]
    rfl
  have h := calcer_shape_invariant (0 : ℚ) [⟨true, EErrorType.PerObjectError, id⟩,
      ⟨false, EErrorType.PerObjectError, id⟩] 0 2 1 examplePlotCalcer hmk
  exact ⟨hmk, h.2.2.2.2.2.2.1, h.2.2.2.2.2.2.2.2 0 (by decide) 0 (by decide)⟩

end CatboostPlot
